import Mathlib

/-! Purge workflow of `mu` (`workflows/purge.go`).

A shallow embedding of the purge workflow: the two stack filters, the
single-stack terminator and the purge worker that plans and runs the teardown.

Conventions of the embedding.

* A Go `func() error` closure built by a constructor is represented by the
  constructor together with the values it captures (`Executor`); `invoke`
  gives the closure's behaviour.
* The external capabilities (everything reached through `ctx.StackManager`,
  `ctx.ParamManager`, standard input) are answers that may depend on the whole
  history of the run so far, so every combination of results is covered.
* The run keeps one timeline of observable events (`State.trace`) and, as
  ghost state, the executors the pipeline has invoked (`State.invoked`).
* A Go `*string` field is an `Option`; reading through a nil pointer ends the
  run with `Outcome.panicked`. The elements of the `[]*common.Stack` and
  `[]*cloudformation.StackResource` slices are taken to be non-nil; the stack
  returned by `AwaitFinalStatus` may be nil.
* Go strings are Lean strings; `strings.HasSuffix` with an ASCII suffix agrees
  with the suffix test on characters.
* Go `int` counters are `Nat`: the count of stacks is bounded by the length of
  a slice held in memory and cannot wrap.
-/

namespace Mu

/-! ## Data model -/

/-- A Go `error` value: `isAwsErr` tells whether the dynamic type satisfies
`awserr.Error`, `text` is what `Error()` returns. -/
structure GoError where
  isAwsErr : Bool
  text : String
deriving DecidableEq, Repr

/-- The fields of `common.Stack` read by the workflow. `Tags` is the Go
`map[string]string`, kept as an association list (nil map = empty list). -/
structure Stack where
  Name : String
  Status : String
  StatusReason : String
  Tags : List (String × String)
  LastUpdateTime : Nat
deriving DecidableEq, Repr

/-- The two-result map read `v, ok := m[key]`. -/
def tagLookup (tags : List (String × String)) (key : String) : Option String :=
  List.lookup key tags

/-- The one-result map read `m[key]`: the zero value `""` when the key is absent. -/
def tag (tags : List (String × String)) (key : String) : String :=
  (tagLookup tags key).getD ""

/-- The fields of `cloudformation.StackResource` read by the workflow; both are
`*string` in Go. -/
structure Resource where
  ResourceType : Option String
  PhysicalResourceId : Option String
deriving DecidableEq, Repr

/-- The closures appended to the plan by `purgeWorker`, each with the values it
captures. The capability arguments are always fields of the one `ctx`. -/
inductive Executor where
  | stackTerminator (stack : Stack)
  | serviceInput (serviceName : String)
  | serviceUndeployer (ns : String) (envName : String)
  | environmentServiceTerminator (envName : String)
  | environmentDbTerminator (envName : String)
  | environmentEcsTerminator (ns : String) (envName : String)
  | environmentConsulTerminator (ns : String) (envName : String)
  | environmentRolesetTerminator (envName : String)
  | environmentElbTerminator (ns : String) (envName : String)
  | environmentVpcTerminator (ns : String) (envName : String)
  | serviceFinder (serviceName : String)
  | pipelineTerminator (ns : String)
  | pipelineRolesetTerminator
deriving DecidableEq, Repr

/-- A call made on an external capability. -/
inductive Call where
  | ListStacks (stackType : String)
  | GetResourcesForStack (stack : Stack)
  | DeleteS3BucketObjects (bucketName : String)
  | DeleteImagesFromEcrRepo (repoName : String)
  | DeleteStack (stackName : String)
  | AwaitFinalStatus (stackName : String)
  | DeleteS3Bucket (bucketName : String)
  | DeleteRolesForNamespace (ns : String)
  | GetParam (name : String)
  | ScanStdin
deriving DecidableEq, Repr

/-- Severity of a log entry. -/
inductive Level where
  | debug | info | warning | error
deriving DecidableEq, Repr

/-- An argument of a format string. -/
inductive Arg where
  | str (s : String)
  | int (n : Nat)
  | ptr (p : Option String)
  | tags (m : List (String × String))
deriving DecidableEq, Repr

/-- One observable event of a run. -/
inductive Event where
  | call (c : Call)
  | log (level : Level) (format : String) (args : List Arg)
  | print (format : String) (args : List Arg)
  | render (rows : List (List String))
deriving DecidableEq, Repr

/-- How an executor ends: it returns (nil or an error), it panics on a nil
pointer, or it ends the process with `os.Exit`. -/
inductive Outcome where
  | returned (err : Option GoError)
  | panicked
  | exited (code : Nat)
deriving DecidableEq, Repr

/-- The run so far: the timeline of events and the executors invoked by the
pipeline (ghost state, never read by the program). -/
structure State where
  trace : List Event
  invoked : List Executor
deriving DecidableEq, Repr

/-- Append one event to the timeline. -/
def emit (st : State) (e : Event) : State :=
  { st with trace := st.trace ++ [e] }

/-- The `common.StackType*` constants used by `purgeWorker`; they are declared
in package `common`, outside this file, and enter as parameters. -/
structure StackTypes where
  StackTypeAll : String
  StackTypeSchedule : String
  StackTypeService : String
  StackTypeEnv : String
  StackTypePipeline : String
  StackTypeBucket : String
  StackTypeRepo : String
  StackTypeVpc : String
  StackTypeIam : String

/-- The table and formatting helpers of package `workflows` used for the
summary (`Bold`, `colorizeStackStatus`, `fmt.Sprintf(KeyValueFormat, _, _)`,
`LastUpdateTime.Local().Format(LastUpdateTime)`); declared outside this file. -/
structure Formatting where
  Bold : String → String
  colorizeStackStatus : String → String
  KeyValue : String → String → String
  FormatTime : Nat → String

/-- Everything `purgeWorker` and `stackTerminator` reach from outside: the
constants, `ctx.Config.Namespace`, the capabilities of `ctx.StackManager`
(which `purgeWorker` passes for each of the six capability parameters of
`stackTerminator`), `ctx.ParamManager.GetParam`, the line scanned from standard
input, and the behaviour of the executors whose constructors live in other
files of the package. Each answer may depend on the events so far. -/
structure Env where
  types : StackTypes
  fmt : Formatting
  Namespace : String
  ListStacks : List Event → String → List Stack × Option GoError
  GetResourcesForStack : List Event → Stack → List Resource × Option GoError
  DeleteS3BucketObjects : List Event → String → Option GoError
  DeleteImagesFromEcrRepo : List Event → String → Option GoError
  DeleteStack : List Event → String → Option GoError
  AwaitFinalStatus : List Event → String → Option Stack
  DeleteS3Bucket : List Event → String → Option GoError
  DeleteRolesForNamespace : List Event → String → Option GoError
  GetParam : List Event → String → String × Option GoError
  Stdin : List Event → String
  others : Executor → List Event → Outcome × List Event

/-! ## The filters -/

/-- Source `filterStacksByStatus` (lines 27-41). -/
def filterStacksByStatus (stks : List Stack) (statuses : List String) : List Stack :=
  stks.foldl
    (fun ret stack =>
      let found := statuses.foldl
        (fun found status => if stack.Status = status then true else found) false
      if !found then ret ++ [stack] else ret)
    []

/-- Source `filterStacksByType` (lines 43-51). -/
def filterStacksByType (stks : List Stack) (stackType : String) : List Stack :=
  stks.foldl
    (fun ret stack => if tag stack.Tags "type" = stackType then ret ++ [stack] else ret)
    []

/-! ## The single-stack terminator -/

/-- Go `strings.HasSuffix`. -/
def HasSuffix (s suffix : String) : Bool :=
  suffix.toList.isSuffixOf s.toList

/-- How a loop over the resources ends. -/
inductive Loop where
  | finished
  | panicked
deriving DecidableEq, Repr

/-- The pre-delete loop of `stackTerminator` (lines 61-71). -/
def preDelete (env : Env) : List Resource → State → Loop × State
  | [], st => (.finished, st)
  | resource :: rest, st =>
    match resource.ResourceType with
    | none => (.panicked, st)
    | some resourceType =>
      if resourceType = "AWS::S3::Bucket" then
        match resource.PhysicalResourceId with
        | none => (.panicked, st)
        | some fqBucketName =>
          let st := emit st (.log .debug "delete bucket: fullname=%s" [.str fqBucketName])
          let st := emit st (.call (.DeleteS3BucketObjects fqBucketName))
          preDelete env rest st
      else if resourceType = "AWS::ECR::Repository" then
        let st := emit st (.log .debug "ECR::Repository %V" [.ptr resource.PhysicalResourceId])
        match resource.PhysicalResourceId with
        | none => (.panicked, st)
        | some repoName =>
          let st := emit st (.call (.DeleteImagesFromEcrRepo repoName))
          preDelete env rest st
      else preDelete env rest st

/-- The delete step of `stackTerminator` (lines 73-80). -/
def deleteStep (env : Env) (stack : Stack) (st : State) : State :=
  let err := env.DeleteStack st.trace stack.Name
  let st := emit st (.call (.DeleteStack stack.Name))
  match err with
  | some e =>
    if e.isAwsErr then emit st (.log .error "DeleteStack %s %v" [.str stack.Name, .str e.text])
    else emit st (.log .error "DeleteStack %s %v" [.str stack.Name, .str e.text])
  | none => st

/-- The wait step of `stackTerminator` (lines 82-85). -/
def awaitStep (env : Env) (stack : Stack) (st : State) : State :=
  let svcStack := env.AwaitFinalStatus st.trace stack.Name
  let st := emit st (.call (.AwaitFinalStatus stack.Name))
  match svcStack with
  | some s =>
    if !HasSuffix s.Status "_COMPLETE" then
      emit st (.log .error "Ended in failed status %s %s" [.str s.Status, .str s.StatusReason])
    else st
  | none => st

/-- The post-delete loop of `stackTerminator` (lines 88-102). -/
def postDelete (env : Env) (stack : Stack) : List Resource → State → Loop × State
  | [], st => (.finished, st)
  | resource :: rest, st =>
    match resource.ResourceType with
    | none => (.panicked, st)
    | some resourceType =>
      if resourceType = "AWS::S3::Bucket" then
        match resource.PhysicalResourceId with
        | none => (.panicked, st)
        | some fqBucketName =>
          let err2 := env.DeleteS3Bucket st.trace fqBucketName
          let st := emit st (.call (.DeleteS3Bucket fqBucketName))
          let st := match err2 with
            | some e =>
              if e.isAwsErr then
                emit st (.log .warning "couldn't delete S3 Bucket %s %v" [.str fqBucketName, .str e.text])
              else
                emit st (.log .warning "couldn't delete S3 Bucket %s %v" [.str fqBucketName, .str e.text])
            | none => st
          postDelete env stack rest st
      else if resourceType = "AWS::IAM::Role" then
        let st := emit st (.call (.DeleteRolesForNamespace (tag stack.Tags "namespace")))
        postDelete env stack rest st
      else postDelete env stack rest st

/-- Source `stackTerminator` (lines 53-105): the closure for `workflow.Stack = stack`. -/
def stackTerminator (env : Env) (stack : Stack) (st : State) : Outcome × State :=
  let (resources, err) := env.GetResourcesForStack st.trace stack
  let st := emit st (.call (.GetResourcesForStack stack))
  match err with
  | some e => (.returned (some e), st)
  | none =>
    match preDelete env resources st with
    | (.panicked, st) => (.panicked, st)
    | (.finished, st) =>
      let st := deleteStep env stack st
      let st := awaitStep env stack st
      match postDelete env stack resources st with
      | (.panicked, st) => (.panicked, st)
      | (.finished, st) => (.returned none, st)

/-! ## The purge worker -/

/-- The summary loop of `purgeWorker` (lines 117-131): the rows appended to the
table and the final `stackCount`. -/
def summaryLoop (fmt : Formatting) (stks : List Stack) : List (List String) × Nat :=
  stks.foldl
    (fun acc stack =>
      match tagLookup stack.Tags "type" with
      | some stackType =>
        (acc.1 ++ [[fmt.Bold stackType, stack.Name,
            fmt.KeyValue (fmt.colorizeStackStatus stack.Status) stack.StatusReason,
            stack.StatusReason, fmt.FormatTime stack.LastUpdateTime]],
          acc.2 + 1)
      | none => acc)
    ([], 0)

/-- The plan construction of `purgeWorker` (lines 134-203): eight loops, each
appending to `executors`; the last four also log the stack. -/
def buildExecutors (env : Env) (stks : List Stack) (st : State) : List Executor × State :=
  let acc : List Executor × State := ([], st)
  let acc := (filterStacksByType stks env.types.StackTypeSchedule).foldl
    (fun acc scheduleStack => (acc.1 ++ [Executor.stackTerminator scheduleStack], acc.2)) acc
  let acc := (filterStacksByType stks env.types.StackTypeService).foldl
    (fun acc stack =>
      (acc.1 ++ [Executor.serviceInput (tag stack.Tags "service")]
        ++ [Executor.serviceUndeployer env.Namespace (tag stack.Tags "environment")], acc.2)) acc
  let acc := (filterStacksByType stks env.types.StackTypeEnv).foldl
    (fun acc stack =>
      let envName := tag stack.Tags "environment"
      (acc.1 ++ [Executor.environmentServiceTerminator envName]
        ++ [Executor.environmentDbTerminator envName]
        ++ [Executor.environmentEcsTerminator env.Namespace envName]
        ++ [Executor.environmentConsulTerminator env.Namespace envName]
        ++ [Executor.environmentRolesetTerminator envName]
        ++ [Executor.environmentElbTerminator env.Namespace envName]
        ++ [Executor.environmentVpcTerminator env.Namespace envName], acc.2)) acc
  let acc := (filterStacksByType stks env.types.StackTypePipeline).foldl
    (fun acc codePipeline =>
      (acc.1 ++ [Executor.serviceFinder (tag codePipeline.Tags "service")]
        ++ [Executor.pipelineTerminator env.Namespace]
        ++ [Executor.pipelineRolesetTerminator], acc.2)) acc
  let acc := (filterStacksByType stks env.types.StackTypeBucket).foldl
    (fun acc bucket =>
      (acc.1 ++ [Executor.stackTerminator bucket],
        emit acc.2 (.log .info "%s %v" [.str bucket.Name, .tags bucket.Tags]))) acc
  let acc := (filterStacksByType stks env.types.StackTypeRepo).foldl
    (fun acc repo =>
      (acc.1 ++ [Executor.stackTerminator repo],
        emit acc.2 (.log .info "%s %v" [.str repo.Name, .tags repo.Tags]))) acc
  let acc := (filterStacksByType stks env.types.StackTypeVpc).foldl
    (fun acc vpcStack =>
      (acc.1 ++ [Executor.stackTerminator vpcStack],
        emit acc.2 (.log .info "%s %v" [.str vpcStack.Name, .tags vpcStack.Tags]))) acc
  let acc := (filterStacksByType stks env.types.StackTypeIam).foldl
    (fun acc roleStack =>
      (acc.1 ++ [Executor.stackTerminator roleStack],
        emit acc.2 (.log .info "%s %v" [.str roleStack.Name, .tags roleStack.Tags]))) acc
  acc

/-- What invoking an executor does: the closure of `stackTerminator` is the one
above, every other closure is defined in another file and answers through
`Env.others`. -/
def invoke (env : Env) (executor : Executor) (st : State) : Outcome × State :=
  match executor with
  | .stackTerminator stack => stackTerminator env stack st
  | other =>
    let (out, events) := env.others other st.trace
    (out, { st with trace := st.trace ++ events })

/-- Modelled from the spec: `newPipelineExecutorNoStop`, declared in another file
of package `workflows`. "Invokes every Executor in sequence regardless of prior
outcomes; failures are individually surfaced (logged) at the point they occur
but never abort the sequence; the variant itself always reports overall success
once all Executors have run." An executor that does not return (a panic, or
`os.Exit`) ends the run, as it does for any Go caller. -/
def newPipelineExecutorNoStop (env : Env) : List Executor → State → Outcome × State
  | [], st => (.returned none, st)
  | executor :: rest, st =>
    match invoke env executor { st with invoked := st.invoked ++ [executor] } with
    | (.returned none, st) => newPipelineExecutorNoStop env rest st
    | (.returned (some err), st) =>
      newPipelineExecutorNoStop env rest (emit st (.log .warning "%v" [.str err.text]))
    | (out, st) => (out, st)

/-- The confirmation phrase of `purgeWorker` (line 210). -/
def phrase : String := "Yes, I want to purge everything."

/-- The inventory step of `purgeWorker` (lines 110-113). -/
def listAll (env : Env) (st : State) : List Stack × State :=
  let (stks, err) := env.ListStacks st.trace env.types.StackTypeAll
  let st := emit st (.call (.ListStacks env.types.StackTypeAll))
  match err with
  | some _ => (stks, emit st (.log .warning "couldn't list stacks (all)" []))
  | none => (stks, st)

/-- The confirmation gate of `purgeWorker` (lines 207-220): `true` when the run
goes on to the pipeline, `false` when it reaches `os.Exit(1)`. -/
def confirm (env : Env) (st : State) : Bool × State :=
  let suppressConfirmation := (env.GetParam st.trace "suppressConfirmation").1
  let st := emit st (.call (.GetParam "suppressConfirmation"))
  if suppressConfirmation ≠ "yes" then
    let st := emit st (.print "Are you sure you want to purge the above resources? " [])
    let st := emit st (.print "(use '%s' to confirm): " [.str phrase])
    let confirmation := env.Stdin st.trace
    let st := emit st (.call .ScanStdin)
    if confirmation ≠ phrase then
      (false, emit st (.log .error "Aborting at user request" []))
    else (true, st)
  else (true, st)

/-- Lines 109-205 of `purgeWorker`: everything before the confirmation gate.
Gives the plan and the state in which the gate is reached. -/
def prepare (env : Env) (st : State) : List Executor × State :=
  let (stks, st) := listAll env st
  let (rows, stackCount) := summaryLoop env.fmt stks
  let st := emit st (.render rows)
  let (executors, st) := buildExecutors env stks st
  (executors, emit st (.log .info "total of %d stacks to purge" [.int stackCount]))

/-- Source `purgeWorker` (lines 107-229): the closure it returns. The result of
the pipeline is dropped and nil returned (lines 226-227). -/
def purgeWorker (env : Env) (st : State) : Outcome × State :=
  let (executors, st) := prepare env st
  match confirm env st with
  | (false, st) => (.exited 1, st)
  | (true, st) =>
    match newPipelineExecutorNoStop env executors st with
    | (.returned _, st) => (.returned none, st)
    | (out, st) => (out, st)

/-! ## Specification-level descriptions and sample inputs -/

/-- The two executors appended for one Service stack (lines 147-148). -/
def serviceSteps (env : Env) (stack : Stack) : List Executor :=
  [.serviceInput (tag stack.Tags "service"),
   .serviceUndeployer env.Namespace (tag stack.Tags "environment")]

/-- The seven executors appended for one Environment stack (lines 155-162), in
the order of the source. -/
def environmentSteps (env : Env) (stack : Stack) : List Executor :=
  [.environmentServiceTerminator (tag stack.Tags "environment"),
   .environmentDbTerminator (tag stack.Tags "environment"),
   .environmentEcsTerminator env.Namespace (tag stack.Tags "environment"),
   .environmentConsulTerminator env.Namespace (tag stack.Tags "environment"),
   .environmentRolesetTerminator (tag stack.Tags "environment"),
   .environmentElbTerminator env.Namespace (tag stack.Tags "environment"),
   .environmentVpcTerminator env.Namespace (tag stack.Tags "environment")]

/-- The three executors appended for one Pipeline stack (lines 168-170). -/
def pipelineSteps (env : Env) (stack : Stack) : List Executor :=
  [.serviceFinder (tag stack.Tags "service"), .pipelineTerminator env.Namespace,
   .pipelineRolesetTerminator]

/-- The plan as the specification describes it: the eight category segments
concatenated in the fixed order Schedule, Service, Environment, Pipeline,
Bucket, Repo, Vpc, Iam, each over `filterStacksByType` of the input. -/
def planInOrder (env : Env) (stks : List Stack) : List Executor :=
  (filterStacksByType stks env.types.StackTypeSchedule).map Executor.stackTerminator
  ++ (filterStacksByType stks env.types.StackTypeService).flatMap (serviceSteps env)
  ++ (filterStacksByType stks env.types.StackTypeEnv).flatMap (environmentSteps env)
  ++ (filterStacksByType stks env.types.StackTypePipeline).flatMap (pipelineSteps env)
  ++ (filterStacksByType stks env.types.StackTypeBucket).map Executor.stackTerminator
  ++ (filterStacksByType stks env.types.StackTypeRepo).map Executor.stackTerminator
  ++ (filterStacksByType stks env.types.StackTypeVpc).map Executor.stackTerminator
  ++ (filterStacksByType stks env.types.StackTypeIam).map Executor.stackTerminator

/-- The test of `filterStacksByType`: the `type` tag equals the given type. -/
def hasType (stackType : String) (stack : Stack) : Bool :=
  decide (tag stack.Tags "type" = stackType)

/-- The capability calls of a timeline, in order. -/
def callsOf (tr : List Event) : List Call :=
  tr.filterMap (fun e => match e with
    | .call c => some c
    | _ => none)

/-- A resource list as the data model of the specification describes it: every
resource has a `ResourceType`, and a bucket or an image repository has the
`PhysicalResourceId` its cleanup needs (no nil pointer is read). -/
def wellFormed (resources : List Resource) : Bool :=
  resources.all (fun r =>
    match r.ResourceType with
    | none => false
    | some t =>
      if t = "AWS::S3::Bucket" ∨ t = "AWS::ECR::Repository" then r.PhysicalResourceId.isSome
      else true)

/-- The pre-delete cleanup call the specification gives for one resource:
empty a bucket, remove the images of a repository, nothing for any other type. -/
def preDeleteCall (r : Resource) : Option Call :=
  match r.ResourceType with
  | some t =>
    if t = "AWS::S3::Bucket" then r.PhysicalResourceId.map Call.DeleteS3BucketObjects
    else if t = "AWS::ECR::Repository" then r.PhysicalResourceId.map Call.DeleteImagesFromEcrRepo
    else none
  | none => none

/-- The post-delete cleanup call the specification gives for one resource:
delete a bucket, sweep the roles of the namespace of the stack for a role,
nothing for any other type. -/
def postDeleteCall (stack : Stack) (r : Resource) : Option Call :=
  match r.ResourceType with
  | some t =>
    if t = "AWS::S3::Bucket" then r.PhysicalResourceId.map Call.DeleteS3Bucket
    else if t = "AWS::IAM::Role" then some (.DeleteRolesForNamespace (tag stack.Tags "namespace"))
    else none
  | none => none

/-- The value of the `suppressConfirmation` parameter as `purgeWorker` reads it
(line 208). -/
def suppressConfirmation (env : Env) (st : State) : String :=
  (env.GetParam (prepare env st).2.trace "suppressConfirmation").1

/-- The line scanned from the operator (lines 213-215), read after the two
prompts have been printed. -/
def operatorLine (env : Env) (st : State) : String :=
  env.Stdin ((prepare env st).2.trace ++
    [.call (.GetParam "suppressConfirmation"),
     .print "Are you sure you want to purge the above resources? " [],
     .print "(use '%s' to confirm): " [.str phrase]])

/-- The condition under which the specification lets the plan run. -/
def gateOpen (env : Env) (st : State) : Prop :=
  suppressConfirmation env st = "yes" ∨ operatorLine env st = phrase

/-- The gate condition is an equality test on strings. -/
instance gateOpenDecidable (env : Env) (st : State) : Decidable (gateOpen env st) := by
  unfold gateOpen
  infer_instance

/-- The two pre-delete cleanup calls. -/
def isPreDeleteCleanup : Call → Bool
  | .DeleteS3BucketObjects _ => true
  | .DeleteImagesFromEcrRepo _ => true
  | _ => false

/-- The two post-delete cleanup calls. -/
def isPostDeleteCleanup : Call → Bool
  | .DeleteS3Bucket _ => true
  | .DeleteRolesForNamespace _ => true
  | _ => false

/-- The eight category constants that `purgeWorker` plans for. -/
def plannedTypes (types : StackTypes) : List String :=
  [types.StackTypeSchedule, types.StackTypeService, types.StackTypeEnv,
   types.StackTypePipeline, types.StackTypeBucket, types.StackTypeRepo,
   types.StackTypeVpc, types.StackTypeIam]

/-- Sample values for the category constants. -/
def sampleTypes : StackTypes :=
  { StackTypeAll := "all", StackTypeSchedule := "schedule", StackTypeService := "service",
    StackTypeEnv := "environment", StackTypePipeline := "pipeline",
    StackTypeBucket := "bucket", StackTypeRepo := "repo", StackTypeVpc := "vpc",
    StackTypeIam := "iam" }

/-- Sample formatting helpers. -/
def sampleFormatting : Formatting :=
  { Bold := fun s => s, colorizeStackStatus := fun s => s,
    KeyValue := fun a b => a ++ " " ++ b, FormatTime := fun _ => "" }

/-- A sample stack of the given name and type, in namespace `mu`. -/
def sampleStack (name type : String) : Stack :=
  { Name := name, Status := "CREATE_COMPLETE", StatusReason := "",
    Tags := [("type", type), ("namespace", "mu")], LastUpdateTime := 0 }

/-- A sample stack that carries no `type` tag. -/
def untaggedStack : Stack :=
  { Name := "stray", Status := "CREATE_COMPLETE", StatusReason := "",
    Tags := [("owner", "ops")], LastUpdateTime := 0 }

/-- A sample discovery answer: one bucket and one role (the role has no
physical id). -/
def sampleResources : List Resource :=
  [{ ResourceType := some "AWS::S3::Bucket", PhysicalResourceId := some "bkt" },
   { ResourceType := some "AWS::IAM::Role", PhysicalResourceId := none }]

/-- Five sample stacks of one category. -/
def fiveBuckets : List Stack :=
  [sampleStack "b1" "bucket", sampleStack "b2" "bucket", sampleStack "b3" "bucket",
   sampleStack "b4" "bucket", sampleStack "b5" "bucket"]

/-- A sample environment: discovery fails for stack `b3` and succeeds for every
other stack, every cleanup call and the stack delete fail, the operator
answers `no`. -/
def sampleEnv : Env :=
  { types := sampleTypes
    fmt := sampleFormatting
    Namespace := "mu"
    ListStacks := fun _ _ => (fiveBuckets, none)
    GetResourcesForStack := fun _ stack =>
      if stack.Name = "b3" then ([], some { isAwsErr := true, text := "Throttling" })
      else (sampleResources, none)
    DeleteS3BucketObjects := fun _ _ => some { isAwsErr := true, text := "AccessDenied" }
    DeleteImagesFromEcrRepo := fun _ _ => none
    DeleteStack := fun _ _ => some { isAwsErr := false, text := "already deleted" }
    AwaitFinalStatus := fun _ _ => none
    DeleteS3Bucket := fun _ _ => some { isAwsErr := true, text := "NoSuchBucket" }
    DeleteRolesForNamespace := fun _ _ => some { isAwsErr := false, text := "denied" }
    GetParam := fun _ _ => ("", none)
    Stdin := fun _ => "no"
    others := fun _ _ => (.returned none, []) }

/-- The empty run. -/
def start : State := { trace := [], invoked := [] }

/-- The sample environment with an operator who types the confirmation phrase. -/
def consentingEnv : Env :=
  { sampleEnv with Stdin := fun _ => phrase }

/-- A sample stack whose `Tags` map is nil. -/
def bareStack : Stack :=
  { Name := "bare", Status := "", StatusReason := "", Tags := [], LastUpdateTime := 0 }

/-- The error entry of line 84. -/
def isFailedStatusEntry : Event → Bool
  | .log .error format _ => decide (format = "Ended in failed status %s %s")
  | _ => false

/-- The entries of line 84 in a timeline, in order. -/
def failedStatusEntries (tr : List Event) : List Event :=
  tr.filter isFailedStatusEntry

/-- What the specification has the status check report for a final status: one
error entry with status and reason when the stack exists and its status does
not end in `_COMPLETE`, nothing otherwise. -/
def statusReport : Option Stack → List Event
  | some svcStack =>
    if HasSuffix svcStack.Status "_COMPLETE" then []
    else [.log .error "Ended in failed status %s %s"
      [.str svcStack.Status, .str svcStack.StatusReason]]
  | none => []

/-- The answer `AwaitFinalStatus` gives in the run of `stackTerminator` from
`st`: it is asked after discovery, the pre-delete loop and the delete step. -/
def awaitAnswer (env : Env) (stack : Stack) (st : State) : Option Stack :=
  env.AwaitFinalStatus
    (deleteStep env stack
      (preDelete env (env.GetResourcesForStack st.trace stack).1
        (emit st (.call (.GetResourcesForStack stack)))).2).trace
    stack.Name

/-- A stack carries a `type` tag (the `ok` of line 120). -/
def carriesType (stack : Stack) : Bool :=
  (tagLookup stack.Tags "type").isSome

/-- The row the specification gives for a stack in the summary: type, name,
status with reason, reason, last update time. -/
def summaryRow (fmt : Formatting) (stack : Stack) : List String :=
  [fmt.Bold (tag stack.Tags "type"), stack.Name,
   fmt.KeyValue (fmt.colorizeStackStatus stack.Status) stack.StatusReason,
   stack.StatusReason, fmt.FormatTime stack.LastUpdateTime]

/-- The plan holds at least one executor for the stack: the stack is in one of
the eight category lists. -/
def isScheduled (env : Env) (stks : List Stack) (stack : Stack) : Bool :=
  (plannedTypes env.types).any (fun t => decide (stack ∈ filterStacksByType stks t))

/-- A sample environment whose listing fails and still hands back five stacks. -/
def partialListingEnv : Env :=
  { sampleEnv with
    ListStacks := fun _ _ => (fiveBuckets, some { isAwsErr := true, text := "Throttling" }) }

/-- A sample environment whose listing fails and hands back nothing, with an
operator who types the confirmation phrase. -/
def failedListingEnv : Env :=
  { consentingEnv with
    ListStacks := fun _ _ => ([], some { isAwsErr := true, text := "Throttling" }) }

/-- A sample environment whose stacks end in `DELETE_FAILED`. -/
def failingWaitEnv : Env :=
  { sampleEnv with
    AwaitFinalStatus := fun _ name =>
      some { Name := name, Status := "DELETE_FAILED", StatusReason := "resource in use",
             Tags := [], LastUpdateTime := 0 } }

/-- A sample discovery answer with a bucket, an image repository and a role. -/
def threeResources : List Resource :=
  [{ ResourceType := some "AWS::S3::Bucket", PhysicalResourceId := some "bkt" },
   { ResourceType := some "AWS::ECR::Repository", PhysicalResourceId := some "repo" },
   { ResourceType := some "AWS::IAM::Role", PhysicalResourceId := some "role" }]

/-- A sample environment in which emptying the bucket, removing the images and
sweeping the roles fail, while the stack delete and the bucket delete succeed. -/
def silentFailureEnv : Env :=
  { sampleEnv with
    GetResourcesForStack := fun _ _ => (threeResources, none)
    DeleteS3BucketObjects := fun _ _ => some { isAwsErr := true, text := "AccessDenied" }
    DeleteImagesFromEcrRepo := fun _ _ => some { isAwsErr := true, text := "AccessDenied" }
    DeleteRolesForNamespace := fun _ _ => some { isAwsErr := false, text := "denied" }
    DeleteStack := fun _ _ => none
    DeleteS3Bucket := fun _ _ => none }

/-- A log entry of level warning or error. -/
def isWarningOrError : Event → Bool
  | .log .warning _ _ => true
  | .log .error _ _ => true
  | _ => false

/-- The log entries `purgeWorker` writes while it builds the plan (lines 175,
183, 191, 199): one for each Bucket, Repo, Vpc and Iam stack, in that order. -/
def planLogs (env : Env) (stks : List Stack) : List Event :=
  (filterStacksByType stks env.types.StackTypeBucket
    ++ filterStacksByType stks env.types.StackTypeRepo
    ++ filterStacksByType stks env.types.StackTypeVpc
    ++ filterStacksByType stks env.types.StackTypeIam).map
    (fun stack => Event.log .info "%s %v" [.str stack.Name, .tags stack.Tags])

/-- A sample environment whose discovery succeeds with one bucket resource that
has no physical id yet. -/
def nilIdEnv : Env :=
  { sampleEnv with
    GetResourcesForStack := fun _ _ =>
      ([{ ResourceType := some "AWS::S3::Bucket", PhysicalResourceId := none }], none) }

/-- A sample discovery answer: an image repository without a physical id,
followed by a bucket. -/
def repoWithoutId : List Resource :=
  [{ ResourceType := some "AWS::ECR::Repository", PhysicalResourceId := none },
   { ResourceType := some "AWS::S3::Bucket", PhysicalResourceId := some "bkt" }]

/-- A sample environment whose discovery succeeds with `repoWithoutId`. -/
def repoWithoutIdEnv : Env :=
  { sampleEnv with GetResourcesForStack := fun _ _ => (repoWithoutId, none) }

/-! ## Theorems -/

theorem foldl_append_keep {α β σ : Type} (f : α → List β) (l : List α) (acc : List β × σ) :
    l.foldl (fun acc x => (acc.1 ++ f x, acc.2)) acc = (acc.1 ++ l.flatMap f, acc.2) := by
  induction l generalizing acc with
  | nil => simp
  | cons x xs ih => simp [List.foldl_cons, ih, List.flatMap_cons, List.append_assoc]

theorem foldl_append_emit {α β : Type} (f : α → List β) (e : α → Event) (l : List α)
    (acc : List β × State) :
    l.foldl (fun acc x => (acc.1 ++ f x, emit acc.2 (e x))) acc
      = (acc.1 ++ l.flatMap f, l.foldl (fun st x => emit st (e x)) acc.2) := by
  induction l generalizing acc with
  | nil => simp
  | cons x xs ih => simp [List.foldl_cons, ih, List.flatMap_cons, List.append_assoc]

theorem flatMap_single {α β : Type} (f : α → β) (l : List α) :
    l.flatMap (fun x => [f x]) = l.map f := by
  induction l with
  | nil => rfl
  | cons x xs ih => simp [List.flatMap_cons, ih]

theorem buildExecutors_fst (env : Env) (stks : List Stack) (st : State) :
    (buildExecutors env stks st).1 = planInOrder env stks := by
  unfold buildExecutors planInOrder
  simp only [List.append_assoc, List.singleton_append, List.cons_append, List.nil_append]
  simp only [foldl_append_keep, foldl_append_emit, flatMap_single, List.nil_append, List.append_assoc]
  rfl

theorem foldl_keep_if {α : Type} (p : α → Prop) [DecidablePred p] (l : List α) (acc : List α) :
    l.foldl (fun ret x => if p x then ret ++ [x] else ret) acc
      = acc ++ l.filter (fun x => decide (p x)) := by
  induction l generalizing acc with
  | nil => simp
  | cons x xs ih =>
    by_cases h : p x <;> simp [List.foldl_cons, ih, List.filter_cons, h]

theorem filterStacksByType_eq (stks : List Stack) (t : String) :
    filterStacksByType stks t = stks.filter (hasType t) := by
  unfold filterStacksByType
  rw [foldl_keep_if (fun s : Stack => tag s.Tags "type" = t)]
  simp [hasType]
  rfl

/-- C7: `filterStacksByType stks t` is exactly the subsequence of `stks` whose
`type` tag equals `t`: it is the filtered list, a sublist of the input (same
relative order), it contains a stack if and only if the stack is in the input
with that tag, and each such stack occurs as often as in the input. -/
theorem filterStacksByType_subsequence (stks : List Stack) (t : String) :
    filterStacksByType stks t = stks.filter (fun s => decide (tag s.Tags "type" = t))
    ∧ List.Sublist (filterStacksByType stks t) stks
    ∧ (∀ s, s ∈ filterStacksByType stks t ↔ s ∈ stks ∧ tag s.Tags "type" = t)
    ∧ (∀ s, tag s.Tags "type" = t →
        (filterStacksByType stks t).count s = stks.count s) := by
  have h := filterStacksByType_eq stks t
  refine ⟨h, ?_, ?_, ?_⟩
  · rw [h]; exact List.filter_sublist stks
  · intro s; rw [h]; simp [hasType, List.mem_filter]
  · intro s hs; rw [h, List.count_filter]; simp [hasType, hs]

@[simp]
theorem callsOf_nil : callsOf [] = [] := rfl

@[simp]
theorem callsOf_append (a b : List Event) : callsOf (a ++ b) = callsOf a ++ callsOf b := by
  simp [callsOf, List.filterMap_append]

@[simp]
theorem callsOf_call (c : Call) (tr : List Event) :
    callsOf (Event.call c :: tr) = c :: callsOf tr := rfl

@[simp]
theorem callsOf_log (l : Level) (f : String) (a : List Arg) (tr : List Event) :
    callsOf (Event.log l f a :: tr) = callsOf tr := rfl

@[simp]
theorem callsOf_print (f : String) (a : List Arg) (tr : List Event) :
    callsOf (Event.print f a :: tr) = callsOf tr := rfl

@[simp]
theorem callsOf_render (r : List (List String)) (tr : List Event) :
    callsOf (Event.render r :: tr) = callsOf tr := rfl

@[simp]
theorem emit_trace (st : State) (e : Event) : (emit st e).trace = st.trace ++ [e] := rfl

@[simp]
theorem emit_invoked (st : State) (e : Event) : (emit st e).invoked = st.invoked := rfl

theorem wellFormed_cons (r : Resource) (rs : List Resource) :
    wellFormed (r :: rs) = true ↔ wellFormed [r] = true ∧ wellFormed rs = true := by
  simp [wellFormed, List.all_cons]

theorem preDelete_invoked (env : Env) (rs : List Resource) (st : State) :
    (preDelete env rs st).2.invoked = st.invoked := by
  induction rs generalizing st with
  | nil => rfl
  | cons r rs ih =>
    unfold preDelete
    cases hT : r.ResourceType with
    | none => simp
    | some t =>
      cases hP : r.PhysicalResourceId with
      | none => by_cases h1 : t = "AWS::S3::Bucket" <;> by_cases h2 : t = "AWS::ECR::Repository" <;>
          simp [h1, h2, ih]
      | some p => by_cases h1 : t = "AWS::S3::Bucket" <;> by_cases h2 : t = "AWS::ECR::Repository" <;>
          simp [h1, h2, ih]

theorem preDelete_trace (env : Env) (rs : List Resource) (st : State) :
    st.trace <+: (preDelete env rs st).2.trace := by
  induction rs generalizing st with
  | nil => exact List.prefix_refl _
  | cons r rs ih =>
    unfold preDelete
    cases hT : r.ResourceType with
    | none => simp
    | some t =>
      cases hP : r.PhysicalResourceId with
      | none => by_cases h1 : t = "AWS::S3::Bucket" <;> by_cases h2 : t = "AWS::ECR::Repository" <;>
          simp [h1, h2, ih]
      | some p =>
        by_cases h1 : t = "AWS::S3::Bucket"
        · simp only [h1, if_true]
          refine List.IsPrefix.trans ?_ (ih _)
          simp
        · by_cases h2 : t = "AWS::ECR::Repository"
          · simp only [h1, h2, if_true, if_false]
            refine List.IsPrefix.trans ?_ (ih _)
            simp
          · simp [h1, h2, ih]

theorem preDelete_wf (env : Env) (rs : List Resource) (st : State)
    (hwf : wellFormed rs = true) :
    (preDelete env rs st).1 = Loop.finished
    ∧ callsOf (preDelete env rs st).2.trace = callsOf st.trace ++ rs.filterMap preDeleteCall := by
  induction rs generalizing st with
  | nil => simp [preDelete]
  | cons r rs ih =>
    rw [wellFormed_cons] at hwf
    obtain ⟨hr, hrs⟩ := hwf
    unfold preDelete
    cases hT : r.ResourceType with
    | none => simp [wellFormed, hT] at hr
    | some t =>
      cases hP : r.PhysicalResourceId with
      | none =>
        by_cases h1 : t = "AWS::S3::Bucket"
        · simp [wellFormed, hT, hP, h1] at hr
        · by_cases h2 : t = "AWS::ECR::Repository"
          · simp [wellFormed, hT, hP, h2] at hr
          · simp [h1, h2, ih _ hrs, List.filterMap_cons, preDeleteCall, hT, hP]
      | some p =>
        by_cases h1 : t = "AWS::S3::Bucket"
        · simp [h1, ih _ hrs, List.filterMap_cons, preDeleteCall, hT, hP]
        · by_cases h2 : t = "AWS::ECR::Repository"
          · simp [h1, h2, ih _ hrs, List.filterMap_cons, preDeleteCall, hT, hP]
          · simp [h1, h2, ih _ hrs, List.filterMap_cons, preDeleteCall, hT, hP]

theorem postDelete_invoked (env : Env) (stack : Stack) (rs : List Resource) (st : State) :
    (postDelete env stack rs st).2.invoked = st.invoked := by
  induction rs generalizing st with
  | nil => rfl
  | cons r rs ih =>
    unfold postDelete
    cases hT : r.ResourceType with
    | none => simp
    | some t =>
      cases hP : r.PhysicalResourceId with
      | none => by_cases h1 : t = "AWS::S3::Bucket" <;> by_cases h2 : t = "AWS::IAM::Role" <;>
          simp [h1, h2, ih]
      | some p =>
        by_cases h1 : t = "AWS::S3::Bucket"
        · simp only [h1, if_true]
          rw [ih]
          cases env.DeleteS3Bucket st.trace p with
          | none => simp
          | some e => by_cases he : e.isAwsErr = true <;> simp [he]
        · by_cases h2 : t = "AWS::IAM::Role" <;> simp [h1, h2, ih]

theorem postDelete_trace (env : Env) (stack : Stack) (rs : List Resource) (st : State) :
    st.trace <+: (postDelete env stack rs st).2.trace := by
  induction rs generalizing st with
  | nil => exact List.prefix_refl _
  | cons r rs ih =>
    unfold postDelete
    cases hT : r.ResourceType with
    | none => simp
    | some t =>
      cases hP : r.PhysicalResourceId with
      | none =>
        by_cases h1 : t = "AWS::S3::Bucket"
        · simp [h1]
        · by_cases h2 : t = "AWS::IAM::Role"
          · simp only [h1, h2, if_true, if_false]
            refine List.IsPrefix.trans ?_ (ih _)
            simp
          · simp [h1, h2, ih]
      | some p =>
        by_cases h1 : t = "AWS::S3::Bucket"
        · simp only [h1, if_true]
          refine List.IsPrefix.trans ?_ (ih _)
          cases env.DeleteS3Bucket st.trace p with
          | none => simp
          | some e =>
            by_cases he : e.isAwsErr = true <;> simp [he]
        · by_cases h2 : t = "AWS::IAM::Role"
          · simp only [h1, h2, if_true, if_false]
            refine List.IsPrefix.trans ?_ (ih _)
            simp
          · simp [h1, h2, ih]

theorem postDelete_wf (env : Env) (stack : Stack) (rs : List Resource) (st : State)
    (hwf : wellFormed rs = true) :
    (postDelete env stack rs st).1 = Loop.finished
    ∧ callsOf (postDelete env stack rs st).2.trace
        = callsOf st.trace ++ rs.filterMap (postDeleteCall stack) := by
  induction rs generalizing st with
  | nil => simp [postDelete]
  | cons r rs ih =>
    rw [wellFormed_cons] at hwf
    obtain ⟨hr, hrs⟩ := hwf
    unfold postDelete
    cases hT : r.ResourceType with
    | none => simp [wellFormed, hT] at hr
    | some t =>
      cases hP : r.PhysicalResourceId with
      | none =>
        by_cases h1 : t = "AWS::S3::Bucket"
        · simp [wellFormed, hT, hP, h1] at hr
        · by_cases h2 : t = "AWS::IAM::Role" <;>
            simp [h1, h2, ih _ hrs, List.filterMap_cons, postDeleteCall, hT, hP]
      | some p =>
        by_cases h1 : t = "AWS::S3::Bucket"
        · simp only [h1, if_true]
          cases env.DeleteS3Bucket st.trace p with
          | none => simp [ih _ hrs, List.filterMap_cons, postDeleteCall, hT, hP, h1]
          | some e =>
            by_cases he : e.isAwsErr = true <;>
              simp [he, ih _ hrs, List.filterMap_cons, postDeleteCall, hT, hP, h1]
        · by_cases h2 : t = "AWS::IAM::Role" <;>
            simp [h1, h2, ih _ hrs, List.filterMap_cons, postDeleteCall, hT, hP]

theorem deleteStep_invoked (env : Env) (stack : Stack) (st : State) :
    (deleteStep env stack st).invoked = st.invoked := by
  unfold deleteStep
  cases env.DeleteStack st.trace stack.Name with
  | none => simp
  | some e => by_cases he : e.isAwsErr = true <;> simp [he]

theorem deleteStep_trace (env : Env) (stack : Stack) (st : State) :
    st.trace <+: (deleteStep env stack st).trace := by
  unfold deleteStep
  cases env.DeleteStack st.trace stack.Name with
  | none => simp
  | some e => by_cases he : e.isAwsErr = true <;> simp [he]

theorem deleteStep_calls (env : Env) (stack : Stack) (st : State) :
    callsOf (deleteStep env stack st).trace = callsOf st.trace ++ [Call.DeleteStack stack.Name] := by
  unfold deleteStep
  cases env.DeleteStack st.trace stack.Name with
  | none => simp
  | some e => by_cases he : e.isAwsErr = true <;> simp [he]

theorem awaitStep_invoked (env : Env) (stack : Stack) (st : State) :
    (awaitStep env stack st).invoked = st.invoked := by
  unfold awaitStep
  cases env.AwaitFinalStatus st.trace stack.Name with
  | none => simp
  | some s => by_cases hs : HasSuffix s.Status "_COMPLETE" = true <;> simp [hs]

theorem awaitStep_trace (env : Env) (stack : Stack) (st : State) :
    st.trace <+: (awaitStep env stack st).trace := by
  unfold awaitStep
  cases env.AwaitFinalStatus st.trace stack.Name with
  | none => simp
  | some s => by_cases hs : HasSuffix s.Status "_COMPLETE" = true <;> simp [hs]

theorem awaitStep_calls (env : Env) (stack : Stack) (st : State) :
    callsOf (awaitStep env stack st).trace
      = callsOf st.trace ++ [Call.AwaitFinalStatus stack.Name] := by
  unfold awaitStep
  cases env.AwaitFinalStatus st.trace stack.Name with
  | none => simp
  | some s => by_cases hs : HasSuffix s.Status "_COMPLETE" = true <;> simp [hs]

/-- What `stackTerminator` does when discovery fails. -/
theorem stackTerminator_of_error (env : Env) (stack : Stack) (st : State) (e : GoError)
    (h : (env.GetResourcesForStack st.trace stack).2 = some e) :
    stackTerminator env stack st
      = (.returned (some e), emit st (.call (.GetResourcesForStack stack))) := by
  unfold stackTerminator
  rcases hd : env.GetResourcesForStack st.trace stack with ⟨rs, err⟩
  rw [hd] at h
  simp only at h
  subst h
  rfl

/-- What `stackTerminator` does when discovery succeeds: the two loops and the
two steps in sequence. -/

theorem stackTerminator_of_ok (env : Env) (stack : Stack) (st : State)
    (h : (env.GetResourcesForStack st.trace stack).2 = none) :
    stackTerminator env stack st =
      let rs := (env.GetResourcesForStack st.trace stack).1
      let pre := preDelete env rs (emit st (.call (.GetResourcesForStack stack)))
      match pre.1 with
      | .panicked => (.panicked, pre.2)
      | .finished =>
        let post := postDelete env stack rs (awaitStep env stack (deleteStep env stack pre.2))
        match post.1 with
        | .panicked => (.panicked, post.2)
        | .finished => (.returned none, post.2) := by
  unfold stackTerminator
  rcases hd : env.GetResourcesForStack st.trace stack with ⟨rs, err⟩
  rw [hd] at h
  simp only at h
  subst h
  simp only
  rcases hp : preDelete env rs (emit st (.call (.GetResourcesForStack stack))) with ⟨l, s1⟩
  cases l with
  | panicked => rfl
  | finished =>
    simp only
    rcases hq : postDelete env stack rs (awaitStep env stack (deleteStep env stack s1)) with ⟨l2, s2⟩
    cases l2 <;> rfl

theorem stackTerminator_invoked (env : Env) (stack : Stack) (st : State) :
    (stackTerminator env stack st).2.invoked = st.invoked := by
  cases h : (env.GetResourcesForStack st.trace stack).2 with
  | some e => rw [stackTerminator_of_error env stack st e h]; rfl
  | none =>
    rw [stackTerminator_of_ok env stack st h]
    simp only
    have hp := preDelete_invoked env (env.GetResourcesForStack st.trace stack).1
      (emit st (.call (.GetResourcesForStack stack)))
    cases hl : (preDelete env (env.GetResourcesForStack st.trace stack).1
      (emit st (.call (.GetResourcesForStack stack)))).1 with
    | panicked => simpa using hp
    | finished =>
      simp only
      have hq := postDelete_invoked env stack (env.GetResourcesForStack st.trace stack).1
        (awaitStep env stack (deleteStep env stack (preDelete env
          (env.GetResourcesForStack st.trace stack).1
          (emit st (.call (.GetResourcesForStack stack)))).2))
      rw [awaitStep_invoked, deleteStep_invoked, hp] at hq
      split <;> simpa using hq

theorem stackTerminator_trace (env : Env) (stack : Stack) (st : State) :
    st.trace ++ [Event.call (.GetResourcesForStack stack)]
      <+: (stackTerminator env stack st).2.trace := by
  cases h : (env.GetResourcesForStack st.trace stack).2 with
  | some e => rw [stackTerminator_of_error env stack st e h]; exact List.prefix_refl _
  | none =>
    rw [stackTerminator_of_ok env stack st h]
    simp only
    have hp := preDelete_trace env (env.GetResourcesForStack st.trace stack).1
      (emit st (.call (.GetResourcesForStack stack)))
    cases hl : (preDelete env (env.GetResourcesForStack st.trace stack).1
      (emit st (.call (.GetResourcesForStack stack)))).1 with
    | panicked => simpa using hp
    | finished =>
      simp only
      have hq := postDelete_trace env stack (env.GetResourcesForStack st.trace stack).1
        (awaitStep env stack (deleteStep env stack (preDelete env
          (env.GetResourcesForStack st.trace stack).1
          (emit st (.call (.GetResourcesForStack stack)))).2))
      have hchain := ((hp.trans (deleteStep_trace env stack _)).trans
        (awaitStep_trace env stack _)).trans hq
      split <;> simpa using hchain

/-- The full run of `stackTerminator` on well-formed resources. -/
theorem stackTerminator_wf (env : Env) (stack : Stack) (st : State)
    (h : (env.GetResourcesForStack st.trace stack).2 = none)
    (hwf : wellFormed (env.GetResourcesForStack st.trace stack).1 = true) :
    (stackTerminator env stack st).1 = .returned none
    ∧ callsOf (stackTerminator env stack st).2.trace
        = callsOf st.trace ++ [Call.GetResourcesForStack stack]
          ++ (env.GetResourcesForStack st.trace stack).1.filterMap preDeleteCall
          ++ [Call.DeleteStack stack.Name, Call.AwaitFinalStatus stack.Name]
          ++ (env.GetResourcesForStack st.trace stack).1.filterMap (postDeleteCall stack) := by
  rw [stackTerminator_of_ok env stack st h]
  simp only
  obtain ⟨hp1, hp2⟩ := preDelete_wf env _ (emit st (.call (.GetResourcesForStack stack))) hwf
  rw [hp1]
  simp only
  obtain ⟨hq1, hq2⟩ := postDelete_wf env stack _
    (awaitStep env stack (deleteStep env stack (preDelete env
      (env.GetResourcesForStack st.trace stack).1
      (emit st (.call (.GetResourcesForStack stack)))).2)) hwf
  rw [hq1]
  simp only
  refine ⟨trivial, ?_⟩
  rw [hq2, awaitStep_calls, deleteStep_calls, hp2]
  simp

theorem invoke_invoked (env : Env) (e : Executor) (st : State) :
    (invoke env e st).2.invoked = st.invoked := by
  cases e <;> first
    | exact stackTerminator_invoked env _ st
    | rfl

theorem invoke_trace (env : Env) (e : Executor) (st : State) :
    st.trace <+: (invoke env e st).2.trace := by
  cases e <;> first
    | exact (List.prefix_append _ _).trans (stackTerminator_trace env _ st)
    | exact List.prefix_append _ _

theorem pipeline_trace (env : Env) (plan : List Executor) (st : State) :
    st.trace <+: (newPipelineExecutorNoStop env plan st).2.trace := by
  induction plan generalizing st with
  | nil => exact List.prefix_refl _
  | cons e es ih =>
    unfold newPipelineExecutorNoStop
    have hi := invoke_trace env e { st with invoked := st.invoked ++ [e] }
    rcases hr : invoke env e { st with invoked := st.invoked ++ [e] } with ⟨o, s1⟩
    rw [hr] at hi
    simp only at hi
    cases o with
    | returned err =>
      cases err with
      | none => exact hi.trans (ih s1)
      | some er => exact (hi.trans (List.prefix_append _ _)).trans (ih (emit s1 _))
    | panicked => exact hi
    | exited c => exact hi

theorem pipeline_invoked_grows (env : Env) (plan : List Executor) (st : State) :
    st.invoked <+: (newPipelineExecutorNoStop env plan st).2.invoked := by
  induction plan generalizing st with
  | nil => exact List.prefix_refl _
  | cons e es ih =>
    unfold newPipelineExecutorNoStop
    have hi := invoke_invoked env e { st with invoked := st.invoked ++ [e] }
    rcases hr : invoke env e { st with invoked := st.invoked ++ [e] } with ⟨o, s1⟩
    rw [hr] at hi
    simp only at hi
    have hpre : st.invoked <+: s1.invoked := by rw [hi]; exact List.prefix_append _ _
    cases o with
    | returned err =>
      cases err with
      | none => exact hpre.trans (ih s1)
      | some er => exact hpre.trans (ih (emit s1 _))
    | panicked => exact hpre
    | exited c => exact hpre

theorem pipeline_first (env : Env) (e : Executor) (es : List Executor) (st : State) :
    st.invoked ++ [e] <+: (newPipelineExecutorNoStop env (e :: es) st).2.invoked := by
  unfold newPipelineExecutorNoStop
  have hi := invoke_invoked env e { st with invoked := st.invoked ++ [e] }
  rcases hr : invoke env e { st with invoked := st.invoked ++ [e] } with ⟨o, s1⟩
  rw [hr] at hi
  simp only at hi
  have hpre : st.invoked ++ [e] <+: s1.invoked := by rw [hi]
  cases o with
  | returned err =>
    cases err with
    | none => exact hpre.trans (pipeline_invoked_grows env es s1)
    | some er => exact hpre.trans (pipeline_invoked_grows env es (emit s1 _))
  | panicked => exact hpre
  | exited c => exact hpre

theorem pipeline_all (env : Env) (plan : List Executor) (st : State)
    (hret : ∀ e ∈ plan, ∀ s : State, ∃ err, (invoke env e s).1 = Outcome.returned err) :
    (newPipelineExecutorNoStop env plan st).1 = Outcome.returned none
    ∧ (newPipelineExecutorNoStop env plan st).2.invoked = st.invoked ++ plan
    ∧ (∀ s, Executor.stackTerminator s ∈ plan →
        Event.call (.GetResourcesForStack s) ∈ (newPipelineExecutorNoStop env plan st).2.trace) := by
  induction plan generalizing st with
  | nil => simp [newPipelineExecutorNoStop]
  | cons e es ih =>
    obtain ⟨err, herr⟩ := hret e (List.mem_cons_self _ _) { st with invoked := st.invoked ++ [e] }
    have hinv := invoke_invoked env e { st with invoked := st.invoked ++ [e] }
    have hdisc : ∀ s, e = Executor.stackTerminator s →
        Event.call (.GetResourcesForStack s)
          ∈ (invoke env e { st with invoked := st.invoked ++ [e] }).2.trace := by
      intro s hs
      subst hs
      exact (stackTerminator_trace env s _).subset (by simp)
    have hrest : ∀ e' ∈ es, ∀ s : State, ∃ err, (invoke env e' s).1 = Outcome.returned err :=
      fun e' he' => hret e' (List.mem_cons_of_mem _ he')
    unfold newPipelineExecutorNoStop
    rcases hr : invoke env e { st with invoked := st.invoked ++ [e] } with ⟨o, s1⟩
    rw [hr] at herr hinv hdisc
    simp only at herr hinv hdisc
    subst herr
    cases err with
    | none =>
      simp only
      obtain ⟨h1, h2, h3⟩ := ih s1 hrest
      refine ⟨h1, ?_, ?_⟩
      · rw [h2, hinv]; simp
      · intro s hs
        rcases List.mem_cons.mp hs with h | h
        · exact (pipeline_trace env es s1).subset (hdisc s h.symm)
        · exact h3 s h
    | some er =>
      simp only
      obtain ⟨h1, h2, h3⟩ := ih (emit s1 (.log .warning "%v" [.str er.text])) hrest
      refine ⟨h1, ?_, ?_⟩
      · rw [h2, emit_invoked, hinv]; simp
      · intro s hs
        rcases List.mem_cons.mp hs with h | h
        · exact (pipeline_trace env es _).subset (by simp [hdisc s h.symm])
        · exact h3 s h

theorem foldl_emit_log {α : Type} (lv : Level) (f : String) (a : α → List Arg) (l : List α)
    (st : State) :
    (l.foldl (fun st x => emit st (Event.log lv f (a x))) st).invoked = st.invoked
    ∧ callsOf (l.foldl (fun st x => emit st (Event.log lv f (a x))) st).trace = callsOf st.trace := by
  induction l generalizing st with
  | nil => simp
  | cons x xs ih => simp [List.foldl_cons, ih]

theorem buildExecutors_state (env : Env) (stks : List Stack) (st : State) :
    (buildExecutors env stks st).2.invoked = st.invoked
    ∧ callsOf (buildExecutors env stks st).2.trace = callsOf st.trace := by
  unfold buildExecutors
  simp only [List.append_assoc, List.singleton_append, List.cons_append, List.nil_append]
  simp only [foldl_append_keep, foldl_append_emit, foldl_emit_log, and_self]

theorem listAll_state (env : Env) (st : State) :
    (listAll env st).2.invoked = st.invoked
    ∧ callsOf (listAll env st).2.trace
        = callsOf st.trace ++ [Call.ListStacks env.types.StackTypeAll] := by
  unfold listAll
  rcases env.ListStacks st.trace env.types.StackTypeAll with ⟨stks, err⟩
  cases err <;> simp

theorem prepare_plan (env : Env) (st : State) :
    (prepare env st).1 = planInOrder env (listAll env st).1 := by
  unfold prepare
  simp only
  exact buildExecutors_fst env _ _

theorem prepare_state (env : Env) (st : State) :
    (prepare env st).2.invoked = st.invoked
    ∧ callsOf (prepare env st).2.trace
        = callsOf st.trace ++ [Call.ListStacks env.types.StackTypeAll] := by
  unfold prepare
  simp only [emit_invoked, emit_trace, callsOf_append, callsOf_log, callsOf_nil,
    List.append_nil]
  rw [(buildExecutors_state env _ _).1, (buildExecutors_state env _ _).2]
  simp [(listAll_state env st).1, (listAll_state env st).2]

theorem confirm_open (env : Env) (st : State) (h : gateOpen env st) :
    (confirm env (prepare env st).2).1 = true
    ∧ (confirm env (prepare env st).2).2.invoked = st.invoked := by
  unfold gateOpen suppressConfirmation operatorLine at h
  unfold confirm
  by_cases h1 : (env.GetParam (prepare env st).2.trace "suppressConfirmation").1 = "yes"
  · simp [h1, (prepare_state env st).1]
  · have h2 := h.resolve_left h1
    simp [h1, h2, (prepare_state env st).1]

theorem confirm_closed (env : Env) (st : State) (h : ¬ gateOpen env st) :
    (confirm env (prepare env st).2).1 = false
    ∧ (confirm env (prepare env st).2).2.invoked = st.invoked
    ∧ callsOf (confirm env (prepare env st).2).2.trace
        = callsOf st.trace ++ [Call.ListStacks env.types.StackTypeAll,
            Call.GetParam "suppressConfirmation", Call.ScanStdin] := by
  unfold gateOpen suppressConfirmation operatorLine at h
  unfold confirm
  obtain ⟨h1, h2⟩ := not_or.mp h
  simp [h1, h2, (prepare_state env st).1, (prepare_state env st).2]

theorem purgeWorker_state_open (env : Env) (st : State)
    (h : (confirm env (prepare env st).2).1 = true) :
    (purgeWorker env st).2
      = (newPipelineExecutorNoStop env (prepare env st).1 (confirm env (prepare env st).2).2).2
    ∧ ((∃ err, (newPipelineExecutorNoStop env (prepare env st).1
          (confirm env (prepare env st).2).2).1 = Outcome.returned err) →
        (purgeWorker env st).1 = Outcome.returned none) := by
  unfold purgeWorker
  rcases hp : prepare env st with ⟨plan, s0⟩
  rw [hp] at h
  simp only at h ⊢
  rcases hc : confirm env s0 with ⟨b, s1⟩
  rw [hc] at h
  simp only at h
  subst h
  simp only
  rcases hn : newPipelineExecutorNoStop env plan s1 with ⟨o, s2⟩
  cases o <;> simp

theorem purgeWorker_closed (env : Env) (st : State)
    (h : (confirm env (prepare env st).2).1 = false) :
    purgeWorker env st = (Outcome.exited 1, (confirm env (prepare env st).2).2) := by
  unfold purgeWorker
  rcases hp : prepare env st with ⟨plan, s0⟩
  rw [hp] at h
  simp only at h ⊢
  rcases hc : confirm env s0 with ⟨b, s1⟩
  rw [hc] at h
  simp only at h
  subst h
  rfl

theorem preDeleteCall_kind (rs : List Resource) :
    ∀ c ∈ rs.filterMap preDeleteCall, isPreDeleteCleanup c = true := by
  intro c hc
  obtain ⟨r, -, hr⟩ := List.mem_filterMap.mp hc
  unfold preDeleteCall at hr
  split at hr
  · split at hr
    · cases hP : r.PhysicalResourceId with
      | none => rw [hP] at hr; cases hr
      | some p => rw [hP] at hr; cases hr; rfl
    · split at hr
      · cases hP : r.PhysicalResourceId with
        | none => rw [hP] at hr; cases hr
        | some p => rw [hP] at hr; cases hr; rfl
      · cases hr
  · cases hr

theorem postDeleteCall_kind (stack : Stack) (rs : List Resource) :
    ∀ c ∈ rs.filterMap (postDeleteCall stack), isPostDeleteCleanup c = true := by
  intro c hc
  obtain ⟨r, -, hr⟩ := List.mem_filterMap.mp hc
  unfold postDeleteCall at hr
  split at hr
  · split at hr
    · cases hP : r.PhysicalResourceId with
      | none => rw [hP] at hr; cases hr
      | some p => rw [hP] at hr; cases hr; rfl
    · split at hr
      · cases hr; rfl
      · cases hr
  · cases hr

theorem count_eq_zero_of_kind (p : Call → Bool) (c : Call) (l : List Call)
    (hl : ∀ x ∈ l, p x = true) (hc : p c = false) : l.count c = 0 := by
  apply List.count_eq_zero.mpr
  intro hmem
  have := hl c hmem
  rw [hc] at this
  cases this

/-- C2 (as amended): when discovery succeeds with resources that have a non-nil
`ResourceType` and, for a bucket or an image repository, a non-nil
`PhysicalResourceId`, `stackTerminator` makes, after the discovery call, the
pre-delete cleanup calls, then `DeleteStack(stack.Name)`, then
`AwaitFinalStatus(stack.Name)`, then the post-delete cleanup calls, whatever
the capabilities answer: the first segment holds only `DeleteS3BucketObjects`
and `DeleteImagesFromEcrRepo` calls, the last only `DeleteS3Bucket` and
`DeleteRolesForNamespace` calls, and `DeleteStack` and `AwaitFinalStatus` are
each called exactly once. For one bucket `b` and one role the calls after
discovery are `DeleteS3BucketObjects b`, `DeleteStack`, `AwaitFinalStatus`,
`DeleteS3Bucket b`, `DeleteRolesForNamespace ns`. -/
theorem stackTerminator_call_order (env : Env) (stack : Stack) (st : State)
    (hok : (env.GetResourcesForStack st.trace stack).2 = none)
    (hwf : wellFormed (env.GetResourcesForStack st.trace stack).1 = true) :
    callsOf (stackTerminator env stack st).2.trace
        = callsOf st.trace ++ [Call.GetResourcesForStack stack]
          ++ (env.GetResourcesForStack st.trace stack).1.filterMap preDeleteCall
          ++ [Call.DeleteStack stack.Name, Call.AwaitFinalStatus stack.Name]
          ++ (env.GetResourcesForStack st.trace stack).1.filterMap (postDeleteCall stack)
    ∧ (∀ c ∈ (env.GetResourcesForStack st.trace stack).1.filterMap preDeleteCall,
        isPreDeleteCleanup c = true)
    ∧ (∀ c ∈ (env.GetResourcesForStack st.trace stack).1.filterMap (postDeleteCall stack),
        isPostDeleteCleanup c = true)
    ∧ (callsOf (stackTerminator env stack st).2.trace).count (Call.DeleteStack stack.Name)
        = (callsOf st.trace).count (Call.DeleteStack stack.Name) + 1
    ∧ (callsOf (stackTerminator env stack st).2.trace).count (Call.AwaitFinalStatus stack.Name)
        = (callsOf st.trace).count (Call.AwaitFinalStatus stack.Name) + 1
    ∧ (∀ b role, (env.GetResourcesForStack st.trace stack).1
          = [{ ResourceType := some "AWS::S3::Bucket", PhysicalResourceId := some b },
             { ResourceType := some "AWS::IAM::Role", PhysicalResourceId := role }] →
        callsOf (stackTerminator env stack st).2.trace
          = callsOf st.trace ++ [Call.GetResourcesForStack stack,
              Call.DeleteS3BucketObjects b, Call.DeleteStack stack.Name,
              Call.AwaitFinalStatus stack.Name, Call.DeleteS3Bucket b,
              Call.DeleteRolesForNamespace (tag stack.Tags "namespace")]) := by
  have hrun := (stackTerminator_wf env stack st hok hwf).2
  have hpre := preDeleteCall_kind (env.GetResourcesForStack st.trace stack).1
  have hpost := postDeleteCall_kind stack (env.GetResourcesForStack st.trace stack).1
  refine ⟨hrun, hpre, hpost, ?_, ?_, ?_⟩
  · rw [hrun]
    simp only [List.count_append, List.count_cons, List.count_nil]
    rw [count_eq_zero_of_kind _ (Call.DeleteStack stack.Name) _ hpre rfl,
      count_eq_zero_of_kind _ (Call.DeleteStack stack.Name) _ hpost rfl]
    simp
  · rw [hrun]
    simp only [List.count_append, List.count_cons, List.count_nil]
    rw [count_eq_zero_of_kind _ (Call.AwaitFinalStatus stack.Name) _ hpre rfl,
      count_eq_zero_of_kind _ (Call.AwaitFinalStatus stack.Name) _ hpost rfl]
    simp
  · intro b role hrs
    rw [hrun, hrs]
    simp [preDeleteCall, postDeleteCall]

theorem stackTerminator_call_order_witness :
    ((sampleEnv.GetResourcesForStack start.trace (sampleStack "b1" "bucket")).2 = none
      ∧ wellFormed (sampleEnv.GetResourcesForStack start.trace (sampleStack "b1" "bucket")).1 = true)
    ∧ callsOf (stackTerminator sampleEnv (sampleStack "b1" "bucket") start).2.trace
        = callsOf start.trace ++ [Call.GetResourcesForStack (sampleStack "b1" "bucket"),
            Call.DeleteS3BucketObjects "bkt", Call.DeleteStack (sampleStack "b1" "bucket").Name,
            Call.AwaitFinalStatus (sampleStack "b1" "bucket").Name, Call.DeleteS3Bucket "bkt",
            Call.DeleteRolesForNamespace (tag (sampleStack "b1" "bucket").Tags "namespace")] :=
  ⟨⟨by decide, by decide⟩,
    (stackTerminator_call_order sampleEnv (sampleStack "b1" "bucket") start
      (by decide) (by decide)).2.2.2.2.2 "bkt" none (by decide)⟩

/-- Counterexample to C2 as stated: discovery succeeds with a bucket resource
whose `PhysicalResourceId` is nil; the executor panics at line 64, and neither
`DeleteStack` nor `AwaitFinalStatus` is ever called. -/
theorem stackTerminator_panics_before_delete :
    nilIdEnv.GetResourcesForStack start.trace (sampleStack "b1" "bucket")
        = ([{ ResourceType := some "AWS::S3::Bucket", PhysicalResourceId := none }], none)
    ∧ (stackTerminator nilIdEnv (sampleStack "b1" "bucket") start).1 = Outcome.panicked
    ∧ callsOf (stackTerminator nilIdEnv (sampleStack "b1" "bucket") start).2.trace
        = [Call.GetResourcesForStack (sampleStack "b1" "bucket")]
    ∧ (callsOf (stackTerminator nilIdEnv (sampleStack "b1" "bucket") start).2.trace).count
        (Call.DeleteStack "b1") = 0
    ∧ (callsOf (stackTerminator nilIdEnv (sampleStack "b1" "bucket") start).2.trace).count
        (Call.AwaitFinalStatus "b1") = 0 := by
  decide

theorem invoke_returns (env : Env)
    (hothers : ∀ e tr, ∃ err, (env.others e tr).1 = Outcome.returned err)
    (hres : ∀ tr stack, (env.GetResourcesForStack tr stack).2 = none →
      wellFormed (env.GetResourcesForStack tr stack).1 = true) :
    ∀ (e : Executor) (s : State), ∃ err, (invoke env e s).1 = Outcome.returned err := by
  intro e s
  cases e with
  | stackTerminator stack =>
    show ∃ err, (stackTerminator env stack s).1 = Outcome.returned err
    cases h : (env.GetResourcesForStack s.trace stack).2 with
    | some er => exact ⟨some er, by rw [stackTerminator_of_error env stack s er h]⟩
    | none => exact ⟨none, (stackTerminator_wf env stack s h (hres _ _ h)).1⟩
  | _ => exact hothers _ s.trace

theorem sampleEnv_returns (e : Executor) (s : State) :
    ∃ err, (invoke sampleEnv e s).1 = Outcome.returned err := by
  refine invoke_returns sampleEnv (fun _ _ => ⟨none, rfl⟩) ?_ e s
  intro tr stack _
  by_cases h : stack.Name = "b3"
  · simp [sampleEnv, h, wellFormed]
  · simp [sampleEnv, h, wellFormed, sampleResources]

/-- C1: for every list of stacks, the plan built by `purgeWorker` is exactly
the concatenation, in this order, of one `stackTerminator` per Schedule stack,
`serviceInput` then `serviceUndeployer` per Service stack, the seven
environment terminators per Environment stack, `serviceFinder`,
`pipelineTerminator`, `pipelineRolesetTerminator` per Pipeline stack, and one
`stackTerminator` per Bucket, Repo, Vpc and Iam stack, each category being
`filterStacksByType` of the input in input order; so every executor of an
earlier category stands before every executor of a later one. The second part
says the same of the plan `purgeWorker` builds from the listed inventory. -/
theorem purgeWorker_plan_order (env : Env) (stks : List Stack) (st : State) :
    (buildExecutors env stks st).1 = planInOrder env stks
    ∧ (prepare env st).1 = planInOrder env (listAll env st).1 :=
  ⟨buildExecutors_fst env stks st, prepare_plan env st⟩

/-- C3: run through the continue-on-failure pipeline, a plan whose executors
return (nil or an error) has every executor invoked exactly once, in plan
order, whichever of them return an error, and the pipeline reports success;
every `stackTerminator` of the plan gets to make its discovery call, so a
failed discovery in one of them does not keep the others from running. -/
theorem pipeline_invokes_every_executor (env : Env) (plan : List Executor) (st : State)
    (hret : ∀ e ∈ plan, ∀ s : State, ∃ err, (invoke env e s).1 = Outcome.returned err) :
    (newPipelineExecutorNoStop env plan st).1 = Outcome.returned none
    ∧ (newPipelineExecutorNoStop env plan st).2.invoked = st.invoked ++ plan
    ∧ (∀ s, Executor.stackTerminator s ∈ plan →
        Event.call (.GetResourcesForStack s) ∈ (newPipelineExecutorNoStop env plan st).2.trace) :=
  pipeline_all env plan st hret

theorem pipeline_invokes_every_executor_witness :
    (∀ e ∈ fiveBuckets.map Executor.stackTerminator, ∀ s : State,
        ∃ err, (invoke sampleEnv e s).1 = Outcome.returned err)
    ∧ (sampleEnv.GetResourcesForStack [] (sampleStack "b3" "bucket")).2 ≠ none
    ∧ (newPipelineExecutorNoStop sampleEnv (fiveBuckets.map Executor.stackTerminator) start).1
        = Outcome.returned none
    ∧ (newPipelineExecutorNoStop sampleEnv (fiveBuckets.map Executor.stackTerminator)
        start).2.invoked = start.invoked ++ fiveBuckets.map Executor.stackTerminator :=
  ⟨fun e _ s => sampleEnv_returns e s, by decide,
    (pipeline_invokes_every_executor sampleEnv (fiveBuckets.map Executor.stackTerminator) start
      (fun e _ s => sampleEnv_returns e s)).1,
    (pipeline_invokes_every_executor sampleEnv (fiveBuckets.map Executor.stackTerminator) start
      (fun e _ s => sampleEnv_returns e s)).2.1⟩

/-- C4: in `purgeWorker` the plan is run if and only if the
`suppressConfirmation` parameter is `"yes"` or the line read from the operator
is exactly the confirmation phrase. With the gate open the worker ends in the
state the pipeline reaches on the plan (and, when the executors return, has
invoked the whole plan and returns nil); with the gate closed the process ends
with exit code 1, no executor has been invoked, and the only capability calls
made are the listing, the parameter read and the scan of standard input. -/
theorem purgeWorker_confirmation_gate (env : Env) (st : State) :
    (gateOpen env st →
        (purgeWorker env st).2
          = (newPipelineExecutorNoStop env (prepare env st).1
              (confirm env (prepare env st).2).2).2
        ∧ (confirm env (prepare env st).2).2.invoked = st.invoked)
    ∧ (gateOpen env st →
        (∀ e ∈ (prepare env st).1, ∀ s : State,
          ∃ err, (invoke env e s).1 = Outcome.returned err) →
        (purgeWorker env st).1 = Outcome.returned none
        ∧ (purgeWorker env st).2.invoked = st.invoked ++ (prepare env st).1)
    ∧ ((prepare env st).1 ≠ [] →
        ((purgeWorker env st).2.invoked ≠ st.invoked ↔ gateOpen env st))
    ∧ (¬ gateOpen env st →
        (purgeWorker env st).1 = Outcome.exited 1
        ∧ (purgeWorker env st).2.invoked = st.invoked
        ∧ callsOf (purgeWorker env st).2.trace
            = callsOf st.trace ++ [Call.ListStacks env.types.StackTypeAll,
                Call.GetParam "suppressConfirmation", Call.ScanStdin]) := by
  have hclosed : ¬ gateOpen env st →
      (purgeWorker env st).1 = Outcome.exited 1
      ∧ (purgeWorker env st).2.invoked = st.invoked
      ∧ callsOf (purgeWorker env st).2.trace
          = callsOf st.trace ++ [Call.ListStacks env.types.StackTypeAll,
              Call.GetParam "suppressConfirmation", Call.ScanStdin] := by
    intro h
    obtain ⟨h1, h2, h3⟩ := confirm_closed env st h
    rw [purgeWorker_closed env st h1]
    exact ⟨rfl, h2, h3⟩
  refine ⟨?_, ?_, ?_, hclosed⟩
  · intro h
    obtain ⟨h1, h2⟩ := confirm_open env st h
    exact ⟨(purgeWorker_state_open env st h1).1, h2⟩
  · intro h hret
    obtain ⟨h1, h2⟩ := confirm_open env st h
    obtain ⟨hs, ho⟩ := purgeWorker_state_open env st h1
    obtain ⟨p1, p2, -⟩ := pipeline_all env (prepare env st).1 (confirm env (prepare env st).2).2 hret
    refine ⟨ho ⟨none, p1⟩, ?_⟩
    rw [hs, p2, h2]
  · intro hne
    constructor
    · intro hchg
      by_contra hno
      exact hchg (hclosed hno).2.1
    · intro h hsame
      obtain ⟨h1, h2⟩ := confirm_open env st h
      obtain ⟨hs, -⟩ := purgeWorker_state_open env st h1
      obtain ⟨e, es, hplan⟩ := List.exists_cons_of_ne_nil hne
      have hpre := pipeline_first env e es (confirm env (prepare env st).2).2
      rw [← hplan, ← hs, h2, hsame] at hpre
      have hlen := hpre.length_le
      simp at hlen

theorem purgeWorker_confirmation_gate_witness :
    ¬ gateOpen sampleEnv start
    ∧ (prepare sampleEnv start).1 = fiveBuckets.map Executor.stackTerminator
    ∧ (purgeWorker sampleEnv start).1 = Outcome.exited 1
    ∧ (purgeWorker sampleEnv start).2.invoked = start.invoked :=
  ⟨by decide, by decide,
    ((purgeWorker_confirmation_gate sampleEnv start).2.2.2 (by decide)).1,
    ((purgeWorker_confirmation_gate sampleEnv start).2.2.2 (by decide)).2.1⟩

/-- C5 (as amended): `stackTerminator` returns an error if and only if
`GetResourcesForStack` returns one, and it is that error; when discovery
succeeds with resources that have a non-nil `ResourceType` and, for a bucket or
an image repository, a non-nil `PhysicalResourceId`, it returns nil whatever the cleanup, delete and wait capabilities answer, and in no case
does it return an error after a successful discovery. -/
theorem stackTerminator_result (env : Env) (stack : Stack) (st : State) :
    (∀ e, (stackTerminator env stack st).1 = Outcome.returned (some e)
        ↔ (env.GetResourcesForStack st.trace stack).2 = some e)
    ∧ ((env.GetResourcesForStack st.trace stack).2 = none →
        wellFormed (env.GetResourcesForStack st.trace stack).1 = true →
        (stackTerminator env stack st).1 = Outcome.returned none)
    ∧ ((env.GetResourcesForStack st.trace stack).2 = none →
        ∀ e, (stackTerminator env stack st).1 ≠ Outcome.returned (some e)) := by
  have hnone : (env.GetResourcesForStack st.trace stack).2 = none →
      ∀ e, (stackTerminator env stack st).1 ≠ Outcome.returned (some e) := by
    intro h e
    rw [stackTerminator_of_ok env stack st h]
    simp only
    split
    · simp
    · split <;> simp
  refine ⟨?_, fun h hwf => (stackTerminator_wf env stack st h hwf).1, hnone⟩
  intro e
  constructor
  · intro hret
    cases h : (env.GetResourcesForStack st.trace stack).2 with
    | none => exact absurd hret (hnone h e)
    | some e2 =>
      rw [stackTerminator_of_error env stack st e2 h] at hret
      simpa using hret
  · intro h
    rw [stackTerminator_of_error env stack st e h]

theorem stackTerminator_result_witness :
    (stackTerminator sampleEnv (sampleStack "b3" "bucket") start).1
        = Outcome.returned (some { isAwsErr := true, text := "Throttling" })
    ∧ (stackTerminator sampleEnv (sampleStack "b1" "bucket") start).1 = Outcome.returned none :=
  ⟨((stackTerminator_result sampleEnv (sampleStack "b3" "bucket") start).1 _).mpr (by decide),
    (stackTerminator_result sampleEnv (sampleStack "b1" "bucket") start).2.1
      (by decide) (by decide)⟩

/-- Counterexample to C5 as stated: discovery succeeds (with a bucket resource
whose `PhysicalResourceId` is nil) and the executor does not return nil: it
panics at line 64. -/
theorem stackTerminator_no_return_on_nil_id :
    (nilIdEnv.GetResourcesForStack start.trace (sampleStack "b2" "bucket")).2 = none
    ∧ (stackTerminator nilIdEnv (sampleStack "b2" "bucket") start).1
        ≠ Outcome.returned none
    ∧ (stackTerminator nilIdEnv (sampleStack "b2" "bucket") start).1 = Outcome.panicked := by
  decide

/-- C6: when `GetResourcesForStack` fails, `stackTerminator` stops at once: the
only event it adds to the run is the single discovery call, none of the
cleanup, delete or wait capabilities is called, and the discovery error is
returned. -/
theorem stackTerminator_aborts_on_discovery_failure (env : Env) (stack : Stack) (st : State)
    (e : GoError) (hfail : (env.GetResourcesForStack st.trace stack).2 = some e) :
    (stackTerminator env stack st).2.trace
        = st.trace ++ [Event.call (.GetResourcesForStack stack)]
    ∧ callsOf (stackTerminator env stack st).2.trace
        = callsOf st.trace ++ [Call.GetResourcesForStack stack]
    ∧ (stackTerminator env stack st).1 = Outcome.returned (some e) := by
  rw [stackTerminator_of_error env stack st e hfail]
  simp

theorem stackTerminator_aborts_on_discovery_failure_witness :
    (sampleEnv.GetResourcesForStack start.trace (sampleStack "b3" "bucket")).2
        = some { isAwsErr := true, text := "Throttling" }
    ∧ callsOf (stackTerminator sampleEnv (sampleStack "b3" "bucket") start).2.trace
        = callsOf start.trace ++ [Call.GetResourcesForStack (sampleStack "b3" "bucket")] :=
  ⟨by decide,
    (stackTerminator_aborts_on_discovery_failure sampleEnv (sampleStack "b3" "bucket") start
      { isAwsErr := true, text := "Throttling" } (by decide)).2.1⟩

theorem filterStacksByType_skip (front back : List Stack) (stack : Stack) (t : String)
    (h : tag stack.Tags "type" ≠ t) :
    filterStacksByType (front ++ stack :: back) t = filterStacksByType (front ++ back) t := by
  simp [filterStacksByType_eq, List.filter_append, List.filter_cons, hasType, h]

theorem tag_of_lookup_none (stack : Stack) (h : tagLookup stack.Tags "type" = none) :
    tag stack.Tags "type" = "" := by
  simp [tag, h]

/-- C8: a stack without a `type` key (the category constants being non-empty
strings) contributes nothing: the summary rows and `stackCount` are those of
the list without it, it is in none of the eight `filterStacksByType` category
lists, and the plan and log of `purgeWorker` are those of the list without it. -/
theorem untagged_stack_is_skipped (env : Env) (front back : List Stack) (stack : Stack)
    (st : State)
    (hno : tagLookup stack.Tags "type" = none)
    (hconst : "" ∉ plannedTypes env.types) :
    summaryLoop env.fmt (front ++ stack :: back) = summaryLoop env.fmt (front ++ back)
    ∧ (∀ t ∈ plannedTypes env.types, stack ∉ filterStacksByType (front ++ stack :: back) t)
    ∧ buildExecutors env (front ++ stack :: back) st = buildExecutors env (front ++ back) st := by
  have htag := tag_of_lookup_none stack hno
  have hne : ∀ t ∈ plannedTypes env.types, tag stack.Tags "type" ≠ t := by
    intro t ht heq
    rw [htag] at heq
    exact hconst (heq ▸ ht)
  refine ⟨?_, ?_, ?_⟩
  · simp [summaryLoop, List.foldl_append, List.foldl_cons, hno]
  · intro t ht hmem
    rw [filterStacksByType_eq] at hmem
    have := (List.mem_filter.mp hmem).2
    simp only [hasType, decide_eq_true_eq] at this
    exact hne t ht this
  · unfold buildExecutors
    rw [filterStacksByType_skip front back stack _ (hne _ (by simp [plannedTypes])),
      filterStacksByType_skip front back stack _ (hne env.types.StackTypeService (by simp [plannedTypes])),
      filterStacksByType_skip front back stack _ (hne env.types.StackTypeEnv (by simp [plannedTypes])),
      filterStacksByType_skip front back stack _ (hne env.types.StackTypePipeline (by simp [plannedTypes])),
      filterStacksByType_skip front back stack _ (hne env.types.StackTypeBucket (by simp [plannedTypes])),
      filterStacksByType_skip front back stack _ (hne env.types.StackTypeRepo (by simp [plannedTypes])),
      filterStacksByType_skip front back stack _ (hne env.types.StackTypeVpc (by simp [plannedTypes])),
      filterStacksByType_skip front back stack _ (hne env.types.StackTypeIam (by simp [plannedTypes]))]

theorem untagged_stack_is_skipped_witness :
    (tagLookup untaggedStack.Tags "type" = none ∧ "" ∉ plannedTypes sampleEnv.types)
    ∧ summaryLoop sampleEnv.fmt ([sampleStack "b1" "bucket"] ++ untaggedStack :: [sampleStack "v" "vpc"])
        = summaryLoop sampleEnv.fmt ([sampleStack "b1" "bucket"] ++ [sampleStack "v" "vpc"])
    ∧ buildExecutors sampleEnv ([sampleStack "b1" "bucket"] ++ untaggedStack :: [sampleStack "v" "vpc"]) start
        = buildExecutors sampleEnv ([sampleStack "b1" "bucket"] ++ [sampleStack "v" "vpc"]) start :=
  ⟨⟨by decide, by decide⟩,
    (untagged_stack_is_skipped sampleEnv [sampleStack "b1" "bucket"] [sampleStack "v" "vpc"]
      untaggedStack start (by decide) (by decide)).1,
    (untagged_stack_is_skipped sampleEnv [sampleStack "b1" "bucket"] [sampleStack "v" "vpc"]
      untaggedStack start (by decide) (by decide)).2.2⟩

/-- C9 (as amended): on a discovered resource list in which every resource has
a non-nil `ResourceType` and every bucket or image repository a non-nil
`PhysicalResourceId`, the pre-delete loop of `stackTerminator` runs to its end and its calls
are exactly, in resource order, `DeleteS3BucketObjects(PhysicalResourceId)` for
each `AWS::S3::Bucket` resource and `DeleteImagesFromEcrRepo(PhysicalResourceId)`
for each `AWS::ECR::Repository` resource, with no call for any other type. -/
theorem preDelete_cleanup_calls (env : Env) (resources : List Resource) (st : State)
    (hwf : wellFormed resources = true) :
    (preDelete env resources st).1 = Loop.finished
    ∧ callsOf (preDelete env resources st).2.trace
        = callsOf st.trace ++ resources.filterMap preDeleteCall
    ∧ (∀ id, preDeleteCall { ResourceType := some "AWS::S3::Bucket", PhysicalResourceId := some id }
        = some (Call.DeleteS3BucketObjects id))
    ∧ (∀ id, preDeleteCall { ResourceType := some "AWS::ECR::Repository", PhysicalResourceId := some id }
        = some (Call.DeleteImagesFromEcrRepo id))
    ∧ (∀ t id, t ≠ "AWS::S3::Bucket" → t ≠ "AWS::ECR::Repository" →
        preDeleteCall { ResourceType := some t, PhysicalResourceId := id } = none) := by
  obtain ⟨h1, h2⟩ := preDelete_wf env resources st hwf
  refine ⟨h1, h2, ?_, ?_, ?_⟩
  · intro id; simp [preDeleteCall]
  · intro id; simp [preDeleteCall]
  · intro t id h1 h2; simp [preDeleteCall, h1, h2]

theorem preDelete_cleanup_calls_witness :
    wellFormed sampleResources = true
    ∧ callsOf (preDelete sampleEnv sampleResources start).2.trace
        = callsOf start.trace ++ sampleResources.filterMap preDeleteCall
    ∧ sampleResources.filterMap preDeleteCall = [Call.DeleteS3BucketObjects "bkt"] :=
  ⟨by decide, (preDelete_cleanup_calls sampleEnv sampleResources start (by decide)).2.1,
    by decide⟩

/-- Counterexample to C9 as stated: discovery answers an image repository
whose `PhysicalResourceId` is nil followed by the bucket `bkt`; the pre-delete
loop panics at line 69 on the first resource, so `DeleteS3BucketObjects(bkt)`
is never called although the list holds that bucket. -/
theorem preDelete_stops_at_nil_id :
    repoWithoutIdEnv.GetResourcesForStack start.trace (sampleStack "b1" "bucket")
        = (repoWithoutId, none)
    ∧ { ResourceType := some "AWS::S3::Bucket", PhysicalResourceId := some "bkt" }
        ∈ repoWithoutId
    ∧ (preDelete repoWithoutIdEnv repoWithoutId start).1 = Loop.panicked
    ∧ callsOf (preDelete repoWithoutIdEnv repoWithoutId start).2.trace = []
    ∧ callsOf (stackTerminator repoWithoutIdEnv (sampleStack "b1" "bucket") start).2.trace
        = [Call.GetResourcesForStack (sampleStack "b1" "bucket")]
    ∧ Call.DeleteS3BucketObjects "bkt"
        ∉ callsOf (stackTerminator repoWithoutIdEnv (sampleStack "b1" "bucket") start).2.trace := by
  decide

/-- C10: the post-delete cleanup of `stackTerminator` works on the resource
list answered by the one discovery call made at the start (discovery is called
exactly once), and its calls are exactly, in resource order,
`DeleteS3Bucket(PhysicalResourceId)` for each `AWS::S3::Bucket` resource and
`DeleteRolesForNamespace(stack.Tags["namespace"])` for each `AWS::IAM::Role`
resource, with no call for any other type. -/
theorem postDelete_cleanup_calls (env : Env) (stack : Stack) (st : State)
    (hok : (env.GetResourcesForStack st.trace stack).2 = none)
    (hwf : wellFormed (env.GetResourcesForStack st.trace stack).1 = true) :
    callsOf (stackTerminator env stack st).2.trace
        = callsOf st.trace ++ [Call.GetResourcesForStack stack]
          ++ (env.GetResourcesForStack st.trace stack).1.filterMap preDeleteCall
          ++ [Call.DeleteStack stack.Name, Call.AwaitFinalStatus stack.Name]
          ++ (env.GetResourcesForStack st.trace stack).1.filterMap (postDeleteCall stack)
    ∧ (callsOf (stackTerminator env stack st).2.trace).count (Call.GetResourcesForStack stack)
        = (callsOf st.trace).count (Call.GetResourcesForStack stack) + 1
    ∧ (∀ id, postDeleteCall stack
          { ResourceType := some "AWS::S3::Bucket", PhysicalResourceId := some id }
        = some (Call.DeleteS3Bucket id))
    ∧ (∀ id, postDeleteCall stack { ResourceType := some "AWS::IAM::Role", PhysicalResourceId := id }
        = some (Call.DeleteRolesForNamespace (tag stack.Tags "namespace")))
    ∧ (∀ t id, t ≠ "AWS::S3::Bucket" → t ≠ "AWS::IAM::Role" →
        postDeleteCall stack { ResourceType := some t, PhysicalResourceId := id } = none) := by
  have hrun := (stackTerminator_wf env stack st hok hwf).2
  have hpre := preDeleteCall_kind (env.GetResourcesForStack st.trace stack).1
  have hpost := postDeleteCall_kind stack (env.GetResourcesForStack st.trace stack).1
  refine ⟨hrun, ?_, ?_, ?_, ?_⟩
  · rw [hrun]
    simp only [List.count_append, List.count_cons, List.count_nil]
    rw [count_eq_zero_of_kind _ (Call.GetResourcesForStack stack) _ hpre rfl,
      count_eq_zero_of_kind _ (Call.GetResourcesForStack stack) _ hpost rfl]
    simp
  · intro id; simp [postDeleteCall]
  · intro id; simp [postDeleteCall]
  · intro t id h1 h2; simp [postDeleteCall, h1, h2]

theorem postDelete_cleanup_calls_witness :
    ((sampleEnv.GetResourcesForStack start.trace (sampleStack "b2" "bucket")).2 = none
      ∧ wellFormed (sampleEnv.GetResourcesForStack start.trace (sampleStack "b2" "bucket")).1 = true)
    ∧ (callsOf (stackTerminator sampleEnv (sampleStack "b2" "bucket") start).2.trace).count
          (Call.GetResourcesForStack (sampleStack "b2" "bucket"))
        = (callsOf start.trace).count (Call.GetResourcesForStack (sampleStack "b2" "bucket")) + 1
    ∧ (sampleEnv.GetResourcesForStack start.trace (sampleStack "b2" "bucket")).1.filterMap
          (postDeleteCall (sampleStack "b2" "bucket"))
        = [Call.DeleteS3Bucket "bkt", Call.DeleteRolesForNamespace "mu"] :=
  ⟨⟨by decide, by decide⟩,
    (postDelete_cleanup_calls sampleEnv (sampleStack "b2" "bucket") start
      (by decide) (by decide)).2.1,
    by decide⟩

theorem foldl_found (x : String) (statuses : List String) (b : Bool) :
    statuses.foldl (fun found status => if x = status then true else found) b
      = (b || decide (x ∈ statuses)) := by
  induction statuses generalizing b with
  | nil => simp
  | cons y ys ih =>
    rw [List.foldl_cons, ih]
    by_cases h : x = y
    · simp [h]
    · simp [h]

/-- C16: `filterStacksByStatus stks statuses` is exactly the subsequence of
`stks` whose `Status` is not a member of `statuses`, in input order; with an
empty exclusion list it is the whole input. -/
theorem filterStacksByStatus_subsequence (stks : List Stack) (statuses : List String) :
    filterStacksByStatus stks statuses
        = stks.filter (fun s => decide (s.Status ∉ statuses))
    ∧ List.Sublist (filterStacksByStatus stks statuses) stks
    ∧ (∀ s, s ∈ filterStacksByStatus stks statuses ↔ s ∈ stks ∧ s.Status ∉ statuses)
    ∧ filterStacksByStatus stks [] = stks := by
  have h : ∀ l : List String, filterStacksByStatus stks l
      = stks.filter (fun s => decide (s.Status ∉ l)) := by
    intro l
    unfold filterStacksByStatus
    have hin : (fun (ret : List Stack) (stack : Stack) =>
        let found := List.foldl (fun found status => if stack.Status = status then true
          else found) false l
        if (!found) = true then ret ++ [stack] else ret)
        = fun ret stack => if stack.Status ∉ l then ret ++ [stack] else ret := by
      funext ret stack
      simp only [foldl_found]
      by_cases h : stack.Status ∈ l <;> simp [h]
    rw [hin, foldl_keep_if (fun s : Stack => s.Status ∉ l) stks []]
    simp
  refine ⟨h statuses, ?_, ?_, ?_⟩
  · rw [h]; exact List.filter_sublist stks
  · intro s; rw [h]; simp [List.mem_filter]
  · rw [h]; simp

/-- C17: `filterStacksByType` is idempotent: filtering the filtered list again by
the same type gives the filtered list. -/
theorem filterStacksByType_idempotent (stks : List Stack) (t : String) :
    filterStacksByType (filterStacksByType stks t) t = filterStacksByType stks t := by
  rw [filterStacksByType_eq (filterStacksByType stks t) t, filterStacksByType_eq stks t,
    List.filter_filter]
  simp

theorem filterStacksByType_keep (front back : List Stack) (stack : Stack) (t : String)
    (h : tag stack.Tags "type" = t) :
    filterStacksByType (front ++ stack :: back) t
      = filterStacksByType front t ++ stack :: filterStacksByType back t := by
  simp [filterStacksByType_eq, List.filter_append, List.filter_cons, hasType, h]

/-- C11: an Environment stack of the input puts seven consecutive executors
into the plan, built from its `environment` tag, in the order
`environmentServiceTerminator`, `environmentDbTerminator`,
`environmentEcsTerminator`, `environmentConsulTerminator`,
`environmentRolesetTerminator`, `environmentElbTerminator`,
`environmentVpcTerminator`; before them stand only the Schedule and Service
segments and the whole blocks of the earlier environments, after them the whole
blocks of the later environments and the later segments, so blocks never
interleave. -/
theorem environment_block_consecutive (env : Env) (front back : List Stack) (stack : Stack)
    (st : State) (henv : tag stack.Tags "type" = env.types.StackTypeEnv) :
    (buildExecutors env (front ++ stack :: back) st).1
      = ((filterStacksByType (front ++ stack :: back) env.types.StackTypeSchedule).map
            Executor.stackTerminator
          ++ (filterStacksByType (front ++ stack :: back) env.types.StackTypeService).flatMap
            (serviceSteps env)
          ++ (filterStacksByType front env.types.StackTypeEnv).flatMap (environmentSteps env))
        ++ [Executor.environmentServiceTerminator (tag stack.Tags "environment"),
            Executor.environmentDbTerminator (tag stack.Tags "environment"),
            Executor.environmentEcsTerminator env.Namespace (tag stack.Tags "environment"),
            Executor.environmentConsulTerminator env.Namespace (tag stack.Tags "environment"),
            Executor.environmentRolesetTerminator (tag stack.Tags "environment"),
            Executor.environmentElbTerminator env.Namespace (tag stack.Tags "environment"),
            Executor.environmentVpcTerminator env.Namespace (tag stack.Tags "environment")]
        ++ ((filterStacksByType back env.types.StackTypeEnv).flatMap (environmentSteps env)
          ++ (filterStacksByType (front ++ stack :: back) env.types.StackTypePipeline).flatMap
            (pipelineSteps env)
          ++ (filterStacksByType (front ++ stack :: back) env.types.StackTypeBucket).map
            Executor.stackTerminator
          ++ (filterStacksByType (front ++ stack :: back) env.types.StackTypeRepo).map
            Executor.stackTerminator
          ++ (filterStacksByType (front ++ stack :: back) env.types.StackTypeVpc).map
            Executor.stackTerminator
          ++ (filterStacksByType (front ++ stack :: back) env.types.StackTypeIam).map
            Executor.stackTerminator) := by
  rw [buildExecutors_fst]
  unfold planInOrder
  rw [filterStacksByType_keep front back stack env.types.StackTypeEnv henv]
  simp [List.flatMap_append, List.flatMap_cons, environmentSteps, List.append_assoc]

theorem environment_block_consecutive_witness :
    tag (sampleStack "prod" "environment").Tags "type" = sampleEnv.types.StackTypeEnv
    ∧ (buildExecutors sampleEnv
        ([sampleStack "b1" "bucket"] ++ sampleStack "prod" "environment" :: []) start).1
      = [Executor.environmentServiceTerminator "",
          Executor.environmentDbTerminator "",
          Executor.environmentEcsTerminator "mu" "",
          Executor.environmentConsulTerminator "mu" "",
          Executor.environmentRolesetTerminator "",
          Executor.environmentElbTerminator "mu" "",
          Executor.environmentVpcTerminator "mu" "",
          Executor.stackTerminator (sampleStack "b1" "bucket")] :=
  ⟨by decide,
    (environment_block_consecutive sampleEnv [sampleStack "b1" "bucket"] []
      (sampleStack "prod" "environment") start (by decide)).trans (by decide)⟩

theorem purgeWorker_outcome_open (env : Env) (st : State)
    (h : (confirm env (prepare env st).2).1 = true) :
    (purgeWorker env st).1
      = match (newPipelineExecutorNoStop env (prepare env st).1
          (confirm env (prepare env st).2).2).1 with
        | .returned _ => Outcome.returned none
        | out => out := by
  unfold purgeWorker
  rcases hp : prepare env st with ⟨plan, s0⟩
  rw [hp] at h
  simp only at h ⊢
  rcases hc : confirm env s0 with ⟨b, s1⟩
  rw [hc] at h
  simp only at h
  subst h
  simp only
  rcases hn : newPipelineExecutorNoStop env plan s1 with ⟨o, s2⟩
  cases o <;> rfl

/-- C12: whenever `purgeWorker` returns to its caller it returns nil, for every
outcome of `ListStacks` and every combination of errors of the executors; it
returns only when the confirmation gate was passed, and with the gate passed
and executors that return it does return (nil). -/
theorem purgeWorker_returns_nil (env : Env) (st : State) :
    (∀ err, (purgeWorker env st).1 = Outcome.returned err → err = none)
    ∧ ((∃ err, (purgeWorker env st).1 = Outcome.returned err) → gateOpen env st)
    ∧ (gateOpen env st →
        (∀ e ∈ (prepare env st).1, ∀ s : State,
          ∃ err, (invoke env e s).1 = Outcome.returned err) →
        (purgeWorker env st).1 = Outcome.returned none) := by
  have hgate : (∃ err, (purgeWorker env st).1 = Outcome.returned err) → gateOpen env st := by
    intro ⟨err, herr⟩
    by_contra hno
    rw [purgeWorker_closed env st (confirm_closed env st hno).1] at herr
    cases herr
  refine ⟨?_, hgate, ?_⟩
  · intro err herr
    have hopen := (confirm_open env st (hgate ⟨err, herr⟩)).1
    rw [purgeWorker_outcome_open env st hopen] at herr
    split at herr
    · cases herr; rfl
    · rename_i hne
      exact (hne err herr).elim
  · intro hg hret
    have hopen := (confirm_open env st hg).1
    exact (purgeWorker_state_open env st hopen).2
      ⟨none, (pipeline_all env _ _ hret).1⟩

theorem consentingEnv_returns (e : Executor) (s : State) :
    ∃ err, (invoke consentingEnv e s).1 = Outcome.returned err := by
  refine invoke_returns consentingEnv (fun _ _ => ⟨none, rfl⟩) ?_ e s
  intro tr stack _
  by_cases h : stack.Name = "b3"
  · simp [consentingEnv, sampleEnv, h, wellFormed]
  · simp [consentingEnv, sampleEnv, h, wellFormed, sampleResources]

theorem purgeWorker_returns_nil_witness :
    gateOpen consentingEnv start
    ∧ (consentingEnv.ListStacks start.trace consentingEnv.types.StackTypeAll).1 = fiveBuckets
    ∧ (consentingEnv.GetResourcesForStack [] (sampleStack "b3" "bucket")).2 ≠ none
    ∧ (purgeWorker consentingEnv start).1 = Outcome.returned none :=
  ⟨by decide, by decide, by decide,
    (purgeWorker_returns_nil consentingEnv start).2.2 (by decide)
      (fun e _ s => consentingEnv_returns e s)⟩

/-- C19: when every discovered resource has a non-nil `ResourceType` and every
bucket or image repository resource a non-nil `PhysicalResourceId`,
`stackTerminator` never reads through a nil pointer: the executor does not
panic and both loops run to their end from any state, for resources of any
type (a role may lack its physical id, the stack may have a nil `Tags` map). -/
theorem stackTerminator_no_nil_dereference (env : Env) (stack : Stack) (st : State)
    (hwf : wellFormed (env.GetResourcesForStack st.trace stack).1 = true) :
    (stackTerminator env stack st).1 ≠ Outcome.panicked
    ∧ (∀ s : State, (preDelete env (env.GetResourcesForStack st.trace stack).1 s).1
        = Loop.finished)
    ∧ (∀ s : State, (postDelete env stack (env.GetResourcesForStack st.trace stack).1 s).1
        = Loop.finished) := by
  refine ⟨?_, fun s => (preDelete_wf env _ s hwf).1, fun s => (postDelete_wf env stack _ s hwf).1⟩
  cases h : (env.GetResourcesForStack st.trace stack).2 with
  | some e => rw [stackTerminator_of_error env stack st e h]; simp
  | none => rw [(stackTerminator_wf env stack st h hwf).1]; simp

theorem stackTerminator_no_nil_dereference_witness :
    (sampleEnv.GetResourcesForStack start.trace bareStack).1
        = [{ ResourceType := some "AWS::S3::Bucket", PhysicalResourceId := some "bkt" },
           { ResourceType := some "AWS::IAM::Role", PhysicalResourceId := none }]
    ∧ bareStack.Tags = []
    ∧ wellFormed (sampleEnv.GetResourcesForStack start.trace bareStack).1 = true
    ∧ (stackTerminator sampleEnv bareStack start).1 ≠ Outcome.panicked :=
  ⟨by decide, rfl, by decide,
    (stackTerminator_no_nil_dereference sampleEnv bareStack start (by decide)).1⟩

theorem planInOrder_length (env : Env) (stks : List Stack) :
    (planInOrder env stks).length
      = (filterStacksByType stks env.types.StackTypeSchedule).length
        + 2 * (filterStacksByType stks env.types.StackTypeService).length
        + 7 * (filterStacksByType stks env.types.StackTypeEnv).length
        + 3 * (filterStacksByType stks env.types.StackTypePipeline).length
        + (filterStacksByType stks env.types.StackTypeBucket).length
        + (filterStacksByType stks env.types.StackTypeRepo).length
        + (filterStacksByType stks env.types.StackTypeVpc).length
        + (filterStacksByType stks env.types.StackTypeIam).length := by
  have hlen : ∀ (f : Stack → List Executor) (n : Nat) (l : List Stack),
      (∀ s, (f s).length = n) → (l.flatMap f).length = n * l.length := by
    intro f n l hf
    induction l with
    | nil => simp
    | cons x xs ih => simp [List.flatMap_cons, ih, hf, Nat.mul_succ, Nat.add_comm]
  unfold planInOrder
  simp only [List.length_append, List.length_map]
  rw [hlen (serviceSteps env) 2 _ (fun _ => rfl), hlen (environmentSteps env) 7 _ (fun _ => rfl),
    hlen (pipelineSteps env) 3 _ (fun _ => rfl)]

/-- C20: with pairwise distinct category constants a stack is in at most one of
the eight category lists, each occurrence of it in the input is one occurrence
in that list, and the length of the plan is |Schedule| + 2|Service| +
7|Environment| + 3|Pipeline| + |Bucket| + |Repo| + |Vpc| + |Iam| over the
filtered lists. -/
theorem plan_categories_disjoint (env : Env) (stks : List Stack) (st : State)
    (hd : (plannedTypes env.types).Nodup) :
    (∀ s, ((plannedTypes env.types).filter
        (fun t => decide (s ∈ filterStacksByType stks t))).length ≤ 1)
    ∧ (∀ s t, tag s.Tags "type" = t → (filterStacksByType stks t).count s = stks.count s)
    ∧ (buildExecutors env stks st).1.length
      = (filterStacksByType stks env.types.StackTypeSchedule).length
        + 2 * (filterStacksByType stks env.types.StackTypeService).length
        + 7 * (filterStacksByType stks env.types.StackTypeEnv).length
        + 3 * (filterStacksByType stks env.types.StackTypePipeline).length
        + (filterStacksByType stks env.types.StackTypeBucket).length
        + (filterStacksByType stks env.types.StackTypeRepo).length
        + (filterStacksByType stks env.types.StackTypeVpc).length
        + (filterStacksByType stks env.types.StackTypeIam).length := by
  refine ⟨?_, ?_, ?_⟩
  · intro s
    rw [← List.countP_eq_length_filter]
    have hmono : List.countP (fun t => decide (s ∈ filterStacksByType stks t))
        (plannedTypes env.types)
        ≤ List.countP (fun t => t == tag s.Tags "type") (plannedTypes env.types) := by
      apply List.countP_mono_left
      intro t _ ht
      rw [filterStacksByType_eq] at ht
      simp only [decide_eq_true_eq, List.mem_filter, hasType] at ht
      simp [ht.2]
    exact hmono.trans (List.nodup_iff_count_le_one.mp hd (tag s.Tags "type"))
  · intro s t hs
    rw [filterStacksByType_eq, List.count_filter]
    simp [hasType, hs]
  · rw [buildExecutors_fst, planInOrder_length]

theorem plan_categories_disjoint_witness :
    (plannedTypes sampleEnv.types).Nodup
    ∧ (buildExecutors sampleEnv fiveBuckets start).1.length
      = (filterStacksByType fiveBuckets sampleEnv.types.StackTypeSchedule).length
        + 2 * (filterStacksByType fiveBuckets sampleEnv.types.StackTypeService).length
        + 7 * (filterStacksByType fiveBuckets sampleEnv.types.StackTypeEnv).length
        + 3 * (filterStacksByType fiveBuckets sampleEnv.types.StackTypePipeline).length
        + (filterStacksByType fiveBuckets sampleEnv.types.StackTypeBucket).length
        + (filterStacksByType fiveBuckets sampleEnv.types.StackTypeRepo).length
        + (filterStacksByType fiveBuckets sampleEnv.types.StackTypeVpc).length
        + (filterStacksByType fiveBuckets sampleEnv.types.StackTypeIam).length
    ∧ (buildExecutors sampleEnv fiveBuckets start).1.length = 5 :=
  ⟨by decide, (plan_categories_disjoint sampleEnv fiveBuckets start (by decide)).2.2, by decide⟩

@[simp]
theorem failedStatusEntries_nil : failedStatusEntries [] = [] := rfl

@[simp]
theorem failedStatusEntries_append (a b : List Event) :
    failedStatusEntries (a ++ b) = failedStatusEntries a ++ failedStatusEntries b := by
  simp [failedStatusEntries]

@[simp]
theorem failedStatusEntries_call (c : Call) (tr : List Event) :
    failedStatusEntries (Event.call c :: tr) = failedStatusEntries tr := rfl

@[simp]
theorem failedStatusEntries_debug (f : String) (a : List Arg) (tr : List Event) :
    failedStatusEntries (Event.log .debug f a :: tr) = failedStatusEntries tr := rfl

@[simp]
theorem failedStatusEntries_warning (f : String) (a : List Arg) (tr : List Event) :
    failedStatusEntries (Event.log .warning f a :: tr) = failedStatusEntries tr := rfl

@[simp]
theorem failedStatusEntries_deleteStack (a : List Arg) (tr : List Event) :
    failedStatusEntries (Event.log .error "DeleteStack %s %v" a :: tr)
      = failedStatusEntries tr := by
  simp [failedStatusEntries, isFailedStatusEntry, List.filter_cons]

theorem failedStatusEntries_statusReport (r : Option Stack) :
    failedStatusEntries (statusReport r) = statusReport r := by
  cases r with
  | none => rfl
  | some s =>
    by_cases h : HasSuffix s.Status "_COMPLETE" = true
    · simp [statusReport, h]
    · simp [statusReport, h, failedStatusEntries, isFailedStatusEntry, List.filter_cons]

theorem preDelete_failedStatus (env : Env) (rs : List Resource) (st : State) :
    failedStatusEntries (preDelete env rs st).2.trace = failedStatusEntries st.trace := by
  induction rs generalizing st with
  | nil => rfl
  | cons r rs ih =>
    unfold preDelete
    cases hT : r.ResourceType with
    | none => simp
    | some t =>
      cases hP : r.PhysicalResourceId with
      | none => by_cases h1 : t = "AWS::S3::Bucket" <;> by_cases h2 : t = "AWS::ECR::Repository" <;>
          simp [h1, h2, ih]
      | some p => by_cases h1 : t = "AWS::S3::Bucket" <;> by_cases h2 : t = "AWS::ECR::Repository" <;>
          simp [h1, h2, ih]

theorem postDelete_failedStatus (env : Env) (stack : Stack) (rs : List Resource) (st : State) :
    failedStatusEntries (postDelete env stack rs st).2.trace = failedStatusEntries st.trace := by
  induction rs generalizing st with
  | nil => rfl
  | cons r rs ih =>
    unfold postDelete
    cases hT : r.ResourceType with
    | none => simp
    | some t =>
      cases hP : r.PhysicalResourceId with
      | none => by_cases h1 : t = "AWS::S3::Bucket" <;> by_cases h2 : t = "AWS::IAM::Role" <;>
          simp [h1, h2, ih]
      | some p =>
        by_cases h1 : t = "AWS::S3::Bucket"
        · simp only [h1, if_true]
          rw [ih]
          cases env.DeleteS3Bucket st.trace p with
          | none => simp
          | some e => by_cases he : e.isAwsErr = true <;> simp [he]
        · by_cases h2 : t = "AWS::IAM::Role" <;> simp [h1, h2, ih]

theorem deleteStep_failedStatus (env : Env) (stack : Stack) (st : State) :
    failedStatusEntries (deleteStep env stack st).trace = failedStatusEntries st.trace := by
  unfold deleteStep
  cases env.DeleteStack st.trace stack.Name with
  | none => simp
  | some e => by_cases he : e.isAwsErr = true <;> simp [he]

theorem awaitStep_trace_eq (env : Env) (stack : Stack) (st : State) :
    (awaitStep env stack st).trace
      = st.trace ++ Event.call (.AwaitFinalStatus stack.Name)
          :: statusReport (env.AwaitFinalStatus st.trace stack.Name) := by
  unfold awaitStep
  cases env.AwaitFinalStatus st.trace stack.Name with
  | none => simp [statusReport]
  | some s => by_cases hs : HasSuffix s.Status "_COMPLETE" = true <;> simp [hs, statusReport]

/-- C18: after `AwaitFinalStatus`, `stackTerminator` emits the "Ended in failed
status" error entry if and only if the returned stack is non-nil and its status
does not end in `_COMPLETE` (so none for a nil result, `DELETE_COMPLETE` or
`ROLLBACK_COMPLETE`); it is the only such entry of the run, and whatever the
answer the executor returns nil and makes its post-delete cleanup calls. -/
theorem await_status_check (env : Env) (stack : Stack) (st : State)
    (hok : (env.GetResourcesForStack st.trace stack).2 = none)
    (hwf : wellFormed (env.GetResourcesForStack st.trace stack).1 = true) :
    (∀ s : State, (awaitStep env stack s).trace
        = s.trace ++ Event.call (.AwaitFinalStatus stack.Name)
            :: statusReport (env.AwaitFinalStatus s.trace stack.Name))
    ∧ failedStatusEntries (stackTerminator env stack st).2.trace
        = failedStatusEntries st.trace ++ statusReport (awaitAnswer env stack st)
    ∧ (∀ r : Option Stack, statusReport r ≠ []
        ↔ ∃ s, r = some s ∧ HasSuffix s.Status "_COMPLETE" = false)
    ∧ (∀ r : Option Stack, ∀ e ∈ statusReport r, ∃ s, r = some s
        ∧ e = Event.log .error "Ended in failed status %s %s" [.str s.Status, .str s.StatusReason])
    ∧ (stackTerminator env stack st).1 = Outcome.returned none
    ∧ callsOf (stackTerminator env stack st).2.trace
        = callsOf st.trace ++ [Call.GetResourcesForStack stack]
          ++ (env.GetResourcesForStack st.trace stack).1.filterMap preDeleteCall
          ++ [Call.DeleteStack stack.Name, Call.AwaitFinalStatus stack.Name]
          ++ (env.GetResourcesForStack st.trace stack).1.filterMap (postDeleteCall stack)
    ∧ HasSuffix "DELETE_COMPLETE" "_COMPLETE" = true
    ∧ HasSuffix "ROLLBACK_COMPLETE" "_COMPLETE" = true := by
  obtain ⟨hret, hcalls⟩ := stackTerminator_wf env stack st hok hwf
  refine ⟨awaitStep_trace_eq env stack, ?_, ?_, ?_, hret, hcalls, by decide, by decide⟩
  · rw [stackTerminator_of_ok env stack st hok]
    simp only
    rw [(preDelete_wf env _ (emit st (.call (.GetResourcesForStack stack))) hwf).1]
    simp only
    rw [(postDelete_wf env stack _ _ hwf).1]
    simp only
    rw [postDelete_failedStatus, awaitStep_trace_eq, failedStatusEntries_append,
      failedStatusEntries_call, failedStatusEntries_statusReport, deleteStep_failedStatus,
      preDelete_failedStatus]
    simp [awaitAnswer]
  · intro r
    cases r with
    | none => simp [statusReport]
    | some s => by_cases h : HasSuffix s.Status "_COMPLETE" = true <;> simp [statusReport, h]
  · intro r e he
    cases r with
    | none => simp [statusReport] at he
    | some s =>
      by_cases h : HasSuffix s.Status "_COMPLETE" = true
      · simp [statusReport, h] at he
      · simp [statusReport, h] at he
        exact ⟨s, rfl, he⟩

theorem summaryLoop_fold (fmt : Formatting) (stks : List Stack) (acc : List (List String) × Nat) :
    stks.foldl
      (fun acc stack =>
        match tagLookup stack.Tags "type" with
        | some stackType =>
          (acc.1 ++ [[fmt.Bold stackType, stack.Name,
              fmt.KeyValue (fmt.colorizeStackStatus stack.Status) stack.StatusReason,
              stack.StatusReason, fmt.FormatTime stack.LastUpdateTime]],
            acc.2 + 1)
        | none => acc)
      acc
      = (acc.1 ++ (stks.filter carriesType).map (summaryRow fmt),
          acc.2 + (stks.filter carriesType).length) := by
  induction stks generalizing acc with
  | nil => simp
  | cons s rest ih =>
    rw [List.foldl_cons, ih]
    cases h : tagLookup s.Tags "type" with
    | none => simp [carriesType, h, List.filter_cons]
    | some v =>
      simp [carriesType, h, List.filter_cons, summaryRow, tag, Nat.add_assoc, Nat.add_comm 1]

theorem summaryLoop_eq (fmt : Formatting) (stks : List Stack) :
    summaryLoop fmt stks
      = ((stks.filter carriesType).map (summaryRow fmt), (stks.filter carriesType).length) := by
  unfold summaryLoop
  rw [summaryLoop_fold]
  simp

theorem prepare_reports_count (env : Env) (st : State) :
    ∃ tr, (prepare env st).2.trace
      = tr ++ [Event.log .info "total of %d stacks to purge"
          [.int (summaryLoop env.fmt (listAll env st).1).2]] := by
  unfold prepare
  exact ⟨_, rfl⟩

theorem scheduled_carriesType (env : Env) (stks : List Stack) (s : Stack)
    (hconst : "" ∉ plannedTypes env.types) (h : isScheduled env stks s = true) :
    carriesType s = true := by
  unfold isScheduled at h
  obtain ⟨t, ht, hmem⟩ := List.any_eq_true.mp h
  rw [filterStacksByType_eq] at hmem
  simp only [decide_eq_true_eq, List.mem_filter, hasType] at hmem
  unfold carriesType
  cases hl : tagLookup s.Tags "type" with
  | some v => rfl
  | none =>
    have : tag s.Tags "type" = "" := by simp [tag, hl]
    rw [this] at hmem
    exact absurd (hmem.2 ▸ ht) hconst

/-- C15 (as amended): the `stackCount` that `purgeWorker` reports as "total of
%d stacks to purge" is the number of input stacks that carry a `type` tag, one
summary row each; every stack the plan holds an executor for is counted (the
category constants being non-empty), so the scheduled stacks are at most
`stackCount` many. -/
theorem stackCount_counts_typed_stacks (env : Env) (stks : List Stack)
    (hconst : "" ∉ plannedTypes env.types) :
    (summaryLoop env.fmt stks).2 = (stks.filter carriesType).length
    ∧ (summaryLoop env.fmt stks).1 = (stks.filter carriesType).map (summaryRow env.fmt)
    ∧ (∀ s, isScheduled env stks s = true → carriesType s = true)
    ∧ (stks.filter (isScheduled env stks)).length ≤ (summaryLoop env.fmt stks).2
    ∧ (∀ st : State, ∃ tr, (prepare env st).2.trace
        = tr ++ [Event.log .info "total of %d stacks to purge"
            [.int (summaryLoop env.fmt (listAll env st).1).2]]) := by
  refine ⟨by rw [summaryLoop_eq], by rw [summaryLoop_eq],
    fun s h => scheduled_carriesType env stks s hconst h, ?_, prepare_reports_count env⟩
  rw [summaryLoop_eq]
  exact (List.monotone_filter_right stks
    (fun s h => scheduled_carriesType env stks s hconst h)).length_le

theorem stackCount_counts_typed_stacks_witness :
    "" ∉ plannedTypes sampleEnv.types
    ∧ (summaryLoop sampleEnv.fmt (untaggedStack :: sampleStack "db" "database" :: fiveBuckets)).2
        = 6
    ∧ ((untaggedStack :: sampleStack "db" "database" :: fiveBuckets).filter
        (isScheduled sampleEnv (untaggedStack :: sampleStack "db" "database" :: fiveBuckets))).length
        ≤ (summaryLoop sampleEnv.fmt
            (untaggedStack :: sampleStack "db" "database" :: fiveBuckets)).2 :=
  ⟨by decide, by decide,
    (stackCount_counts_typed_stacks sampleEnv
      (untaggedStack :: sampleStack "db" "database" :: fiveBuckets) (by decide)).2.2.2.1⟩

/-- Counterexample to C15 as stated: a stack of type `database` is counted in
`stackCount` while the plan holds no executor for it. -/
theorem counted_stack_not_scheduled :
    carriesType (sampleStack "db" "database") = true
    ∧ (summaryLoop sampleEnv.fmt [sampleStack "db" "database"]).2 = 1
    ∧ (buildExecutors sampleEnv [sampleStack "db" "database"] start).1 = []
    ∧ ([sampleStack "db" "database"].filter
        (isScheduled sampleEnv [sampleStack "db" "database"])).length = 0 := by
  decide

theorem await_status_check_witness :
    ((failingWaitEnv.GetResourcesForStack start.trace (sampleStack "b1" "bucket")).2 = none
      ∧ wellFormed (failingWaitEnv.GetResourcesForStack start.trace
          (sampleStack "b1" "bucket")).1 = true)
    ∧ failedStatusEntries (stackTerminator failingWaitEnv (sampleStack "b1" "bucket") start).2.trace
        = [Event.log .error "Ended in failed status %s %s"
            [.str "DELETE_FAILED", .str "resource in use"]]
    ∧ (stackTerminator failingWaitEnv (sampleStack "b1" "bucket") start).1
        = Outcome.returned none :=
  ⟨⟨by decide, by decide⟩,
    ((await_status_check failingWaitEnv (sampleStack "b1" "bucket") start
      (by decide) (by decide)).2.1).trans (by decide),
    (await_status_check failingWaitEnv (sampleStack "b1" "bucket") start
      (by decide) (by decide)).2.2.2.2.1⟩

theorem listAll_of_error (env : Env) (st : State) (e : GoError)
    (herr : (env.ListStacks st.trace env.types.StackTypeAll).2 = some e) :
    listAll env st
      = ((env.ListStacks st.trace env.types.StackTypeAll).1,
          emit (emit st (.call (.ListStacks env.types.StackTypeAll)))
            (.log .warning "couldn't list stacks (all)" [])) := by
  unfold listAll
  rcases hl : env.ListStacks st.trace env.types.StackTypeAll with ⟨stks, err⟩
  rw [hl] at herr
  simp only at herr
  subst herr
  rfl

theorem buildExecutors_nil (env : Env) (st : State) : buildExecutors env [] st = ([], st) := rfl

theorem foldl_emit_state {α : Type} (e : α → Event) (l : List α) (st : State) :
    l.foldl (fun st x => emit st (e x)) st
      = { trace := st.trace ++ l.map e, invoked := st.invoked } := by
  induction l generalizing st with
  | nil => simp
  | cons x xs ih =>
    rw [List.foldl_cons, ih]
    simp [emit]

theorem buildExecutors_snd (env : Env) (stks : List Stack) (st : State) :
    (buildExecutors env stks st).2
      = { trace := st.trace ++ planLogs env stks, invoked := st.invoked } := by
  unfold buildExecutors planLogs
  simp only [List.append_assoc, List.singleton_append, List.cons_append, List.nil_append]
  simp only [foldl_append_keep, foldl_append_emit, foldl_emit_state]
  simp [List.map_append, List.append_assoc]

/-- C14 (as amended): when `ListStacks(StackTypeAll)` returns an error,
`purgeWorker` logs a warning and continues with the list handed back with the
error: the rendered summary has one row for each stack of that list carrying a
`type` tag, the reported `stackCount` is their number, and the plan is the plan
of that list. When that list is empty the summary has no rows, `stackCount` is
0, the plan has no executors, and the worker proceeds to the confirmation gate,
returning nil when the gate is passed (exit code 1 when it is not). -/
theorem purgeWorker_listing_error (env : Env) (st : State) (e : GoError)
    (herr : (env.ListStacks st.trace env.types.StackTypeAll).2 = some e) :
    listAll env st
      = ((env.ListStacks st.trace env.types.StackTypeAll).1,
          emit (emit st (.call (.ListStacks env.types.StackTypeAll)))
            (.log .warning "couldn't list stacks (all)" []))
    ∧ prepare env st
      = (planInOrder env (env.ListStacks st.trace env.types.StackTypeAll).1,
          { trace := st.trace
              ++ [.call (.ListStacks env.types.StackTypeAll),
                  .log .warning "couldn't list stacks (all)" [],
                  .render (((env.ListStacks st.trace env.types.StackTypeAll).1.filter
                    carriesType).map (summaryRow env.fmt))]
              ++ planLogs env (env.ListStacks st.trace env.types.StackTypeAll).1
              ++ [.log .info "total of %d stacks to purge"
                  [.int ((env.ListStacks st.trace env.types.StackTypeAll).1.filter
                    carriesType).length]],
            invoked := st.invoked })
    ∧ ((env.ListStacks st.trace env.types.StackTypeAll).1 = [] →
        prepare env st
          = ([], { trace := st.trace ++ [.call (.ListStacks env.types.StackTypeAll),
                      .log .warning "couldn't list stacks (all)" [],
                      .render [],
                      .log .info "total of %d stacks to purge" [.int 0]],
                   invoked := st.invoked })
        ∧ (gateOpen env st →
            (purgeWorker env st).1 = Outcome.returned none
            ∧ (purgeWorker env st).2.invoked = st.invoked)
        ∧ (¬ gateOpen env st → (purgeWorker env st).1 = Outcome.exited 1)) := by
  have hl := listAll_of_error env st e herr
  have hfull : prepare env st
      = (planInOrder env (env.ListStacks st.trace env.types.StackTypeAll).1,
          { trace := st.trace
              ++ [.call (.ListStacks env.types.StackTypeAll),
                  .log .warning "couldn't list stacks (all)" [],
                  .render (((env.ListStacks st.trace env.types.StackTypeAll).1.filter
                    carriesType).map (summaryRow env.fmt))]
              ++ planLogs env (env.ListStacks st.trace env.types.StackTypeAll).1
              ++ [.log .info "total of %d stacks to purge"
                  [.int ((env.ListStacks st.trace env.types.StackTypeAll).1.filter
                    carriesType).length]],
            invoked := st.invoked }) := by
    unfold prepare
    rw [hl]
    simp only [summaryLoop_eq]
    apply Prod.ext
    · exact buildExecutors_fst env _ _
    · simp [buildExecutors_snd, emit, List.append_assoc]
  refine ⟨hl, hfull, ?_⟩
  intro hempty
  have hprep : prepare env st
      = ([], { trace := st.trace ++ [.call (.ListStacks env.types.StackTypeAll),
                  .log .warning "couldn't list stacks (all)" [],
                  .render [],
                  .log .info "total of %d stacks to purge" [.int 0]],
               invoked := st.invoked }) := by
    rw [hfull, hempty]
    simp [planInOrder, planLogs, filterStacksByType]
  refine ⟨hprep, ?_, ?_⟩
  · intro hg
    obtain ⟨h1, h2⟩ := confirm_open env st hg
    obtain ⟨hs, ho⟩ := purgeWorker_state_open env st h1
    have hplan : (prepare env st).1 = [] := by rw [hprep]
    have hrun : newPipelineExecutorNoStop env (prepare env st).1
        (confirm env (prepare env st).2).2
        = (Outcome.returned none, (confirm env (prepare env st).2).2) := by
      rw [hplan]; rfl
    refine ⟨ho ⟨none, by rw [hrun]⟩, ?_⟩
    rw [hs, hrun]
    exact h2
  · intro hg
    rw [purgeWorker_closed env st (confirm_closed env st hg).1]

theorem purgeWorker_listing_error_witness :
    (partialListingEnv.ListStacks start.trace partialListingEnv.types.StackTypeAll).2
        = some { isAwsErr := true, text := "Throttling" }
    ∧ (prepare partialListingEnv start).2.trace
        = [.call (.ListStacks "all"),
           .log .warning "couldn't list stacks (all)" [],
           .render (fiveBuckets.map (summaryRow partialListingEnv.fmt))]
          ++ fiveBuckets.map
              (fun stack => Event.log .info "%s %v" [.str stack.Name, .tags stack.Tags])
          ++ [.log .info "total of %d stacks to purge" [.int 5]]
    ∧ (failedListingEnv.ListStacks start.trace failedListingEnv.types.StackTypeAll)
        = ([], some { isAwsErr := true, text := "Throttling" })
    ∧ gateOpen failedListingEnv start
    ∧ (prepare failedListingEnv start).1 = []
    ∧ (purgeWorker failedListingEnv start).1 = Outcome.returned none :=
  ⟨by decide,
    (congrArg (fun p => p.2.trace)
      (purgeWorker_listing_error partialListingEnv start
        { isAwsErr := true, text := "Throttling" } (by decide)).2.1).trans (by decide),
    by decide, by decide,
    congrArg Prod.fst
      ((purgeWorker_listing_error failedListingEnv start
        { isAwsErr := true, text := "Throttling" } (by decide)).2.2 (by decide)).1,
    (((purgeWorker_listing_error failedListingEnv start
        { isAwsErr := true, text := "Throttling" } (by decide)).2.2 (by decide)).2.1
      (by decide)).1⟩

/-- Counterexample to C14 as stated: a listing that fails and hands back five
bucket stacks makes `purgeWorker` render five summary rows, report
`stackCount` 5 and build a plan of five executors. -/
theorem listing_error_keeps_returned_stacks :
    (partialListingEnv.ListStacks start.trace partialListingEnv.types.StackTypeAll).2
        = some { isAwsErr := true, text := "Throttling" }
    ∧ Event.render (fiveBuckets.map (summaryRow partialListingEnv.fmt))
        ∈ (prepare partialListingEnv start).2.trace
    ∧ (fiveBuckets.map (summaryRow partialListingEnv.fmt)).length = 5
    ∧ (prepare partialListingEnv start).2.trace.getLast?
        = some (Event.log .info "total of %d stacks to purge" [.int 5])
    ∧ (prepare partialListingEnv start).1 = fiveBuckets.map Executor.stackTerminator := by
  decide

/-- C13 at a failing input: the three cleanup calls whose result is dropped
fail, yet the run of `stackTerminator` holds no warning or error entry (and
returns nil). -/
theorem cleanup_failure_not_logged :
    (silentFailureEnv.GetResourcesForStack start.trace (sampleStack "b1" "bucket"))
        = (threeResources, none)
    ∧ (∀ tr, silentFailureEnv.DeleteS3BucketObjects tr "bkt"
        = some { isAwsErr := true, text := "AccessDenied" })
    ∧ (∀ tr, silentFailureEnv.DeleteImagesFromEcrRepo tr "repo"
        = some { isAwsErr := true, text := "AccessDenied" })
    ∧ (∀ tr, silentFailureEnv.DeleteRolesForNamespace tr "mu"
        = some { isAwsErr := false, text := "denied" })
    ∧ callsOf (stackTerminator silentFailureEnv (sampleStack "b1" "bucket") start).2.trace
        = [Call.GetResourcesForStack (sampleStack "b1" "bucket"),
           Call.DeleteS3BucketObjects "bkt", Call.DeleteImagesFromEcrRepo "repo",
           Call.DeleteStack "b1", Call.AwaitFinalStatus "b1",
           Call.DeleteS3Bucket "bkt", Call.DeleteRolesForNamespace "mu"]
    ∧ (stackTerminator silentFailureEnv (sampleStack "b1" "bucket") start).2.trace.filter
        isWarningOrError = []
    ∧ (stackTerminator silentFailureEnv (sampleStack "b1" "bucket") start).1
        = Outcome.returned none :=
  ⟨by decide, fun _ => rfl, fun _ => rfl, fun _ => rfl, by decide, by decide, by decide⟩

end Mu
